/-
Verification of the storyboard canvas core (layout engine, sync engine,
constraint window) against its natural-language specification.

Shallow embedding notes:
* `AbstractDate` is `List Int` (the TypeScript `number[]`, segments are
  integers in every reachable state since they come from the integer
  date parser).
* Canvas coordinates and layout-config fields are rationals `ℚ`,
  modelling exact JS number arithmetic.
* JS `Map` objects are association lists built with a `mapSet` operation
  that matches `Map.set` (overwrite in place, insertion order kept).
* JS stable `Array.prototype.sort` is modelled with `List.insertionSort`,
  which is stable and produces the same output as any stable sort for a
  total preorder comparator.
* The one JS `NaN` corner reachable in `calculateSyncChanges` (indexing a
  neighbour date array past its end) is modelled with `Option Int`
  (`none` = NaN), with the JS propagation and comparison rules.
-/
import Mathlib

set_option linter.unusedVariables false

-- ═══════════════════ Data model (canvasTypes.ts) ═══════════════════

/-- `AbstractDate` from canvasTypes.ts: an ordered list of integer segments,
most significant first. -/
abbrev AbstractDate : Type := List Int

/-- Layout mode: `'absolute'` or `'ordered'`. -/
inductive LayoutMode where
  | absolute
  | ordered
deriving DecidableEq

/-- `LayoutConfig` from canvasTypes.ts. -/
structure LayoutConfig where
  layoutMode : LayoutMode
  xScale : ℚ
  arcSpacing : ℚ
  nodeWidth : ℚ
  nodeHeight : ℚ
  nodeGapX : ℚ
deriving DecidableEq

/-- `StoryEvent` from canvasTypes.ts (the fields the core components read).
`basename` models `file.basename` of the backing `TFile`; `title` is the
`story-title` frontmatter value or the basename. -/
structure StoryEvent where
  nodeId : String
  basename : String
  title : String
  date : AbstractDate
  endDate : Option AbstractDate
  arc : String
deriving DecidableEq

/-- A canvas position. -/
structure Pos where
  x : ℚ
  y : ℚ
deriving DecidableEq

/-- The data of one canvas node that the core reads
(`node.getData()` / `node.x` / `node.y`). -/
structure CanvasNodeData where
  x : ℚ
  y : ℚ
  ntype : String
  file : Option String
deriving DecidableEq

/-- The host canvas: `canvas.nodes` is a `Map` from node id to node, so the
entry list carries its ids in insertion order with unique keys. -/
structure Canvas where
  nodes : List (String × CanvasNodeData)
deriving DecidableEq

/-- `canvas.nodes.get(id)` (a JS `Map` lookup: first entry wins; keys are
unique in any real `Map`). -/
def canvasLookup (canvas : Canvas) (id : String) : Option CanvasNodeData :=
  (canvas.nodes.find? (fun p => p.1 == id)).map (fun p => p.2)

/-- JS truthiness of the optional `file` field of a node: present and not
the empty string. -/
def optTruthy : Option String → Bool
  | none => false
  | some s => s ≠ ""

-- ═══════════════ compareAbstractDates (layoutEngine.ts 16-24) ═══════════════

/-- The loop of `compareAbstractDates`, starting at position `i`:
walk positions `i, i+1, …` up to `max a.length b.length`, reading missing
positions as `0`, and return `av - bv` at the first difference. -/
def compareFrom (a b : AbstractDate) (i : Nat) : Int :=
  if h : i < max a.length b.length then
    let av := a.getD i 0
    let bv := b.getD i 0
    if av ≠ bv then av - bv else compareFrom a b (i + 1)
  else 0
termination_by max a.length b.length - i

/-- The same loop, walking an explicit list of positions (structural
recursion, so that concrete comparisons evaluate by reduction). -/
def compareLoop (a b : AbstractDate) : List Nat → Int
  | [] => 0
  | i :: rest =>
      let av := a.getD i 0
      let bv := b.getD i 0
      if av ≠ bv then av - bv else compareLoop a b rest

/-- `compareAbstractDates` from layoutEngine.ts: lexicographic comparison
over `max(a.length, b.length)` positions, each missing position read as 0. -/
def compareAbstractDates (a b : AbstractDate) : Int :=
  compareLoop a b (List.range (max a.length b.length))

theorem compareFrom_stop {a b : AbstractDate} {i : Nat}
    (h : ¬ i < max a.length b.length) : compareFrom a b i = 0 := by
  rw [compareFrom]
  simp [h]

theorem compareFrom_step {a b : AbstractDate} {i : Nat}
    (h : i < max a.length b.length) :
    compareFrom a b i =
      if a.getD i 0 ≠ b.getD i 0 then a.getD i 0 - b.getD i 0
      else compareFrom a b (i + 1) := by
  conv_lhs => rw [compareFrom]
  simp [h]

theorem compareLoop_range' (a b : AbstractDate) :
    ∀ (n i : Nat), i + n = max a.length b.length →
    compareLoop a b (List.range' i n) = compareFrom a b i
  | 0, i, h => by
    rw [List.range'_zero, compareLoop, compareFrom_stop (by omega)]
  | n + 1, i, h => by
    rw [List.range'_succ, compareLoop, compareFrom_step (by omega),
      compareLoop_range' a b n (i + 1) (by omega)]

/-- The structural loop agrees with the indexed loop. -/
theorem compareAbstractDates_def (a b : AbstractDate) :
    compareAbstractDates a b = compareFrom a b 0 := by
  rw [compareAbstractDates, List.range_eq_range']
  exact compareLoop_range' a b _ 0 (by omega)

theorem getD_eq_zero_of_max_le {a b : AbstractDate} {j : Nat}
    (h : max a.length b.length ≤ j) : a.getD j 0 = 0 ∧ b.getD j 0 = 0 := by
  constructor
  · exact List.getD_eq_default _ _ (le_trans (le_max_left _ _) h)
  · exact List.getD_eq_default _ _ (le_trans (le_max_right _ _) h)

/-- If all positions from `i` on agree (missing read as 0), the loop
returns 0. -/
theorem compareFrom_eq_zero_of_agree {a b : AbstractDate} {i : Nat}
    (h : ∀ j, i ≤ j → a.getD j 0 = b.getD j 0) : compareFrom a b i = 0 := by
  by_cases hlt : i < max a.length b.length
  · rw [compareFrom_step hlt]
    have hi := h i le_rfl
    simp only [hi, ne_eq, not_true_eq_false, if_neg, ite_false]
    exact compareFrom_eq_zero_of_agree (fun j hj => h j (le_trans (Nat.le_succ i) hj))
  · exact compareFrom_stop hlt
termination_by max a.length b.length - i

/-- If the loop returns 0 then all positions from `i` on agree. -/
theorem agree_of_compareFrom_eq_zero {a b : AbstractDate} {i : Nat}
    (h : compareFrom a b i = 0) : ∀ j, i ≤ j → a.getD j 0 = b.getD j 0 := by
  intro j hj
  by_cases hlt : i < max a.length b.length
  · rw [compareFrom_step hlt] at h
    by_cases hd : a.getD i 0 = b.getD i 0
    · simp only [hd, ne_eq, not_true_eq_false, if_neg, ite_false] at h
      rcases Nat.eq_or_lt_of_le hj with rfl | hj'
      · exact hd
      · exact agree_of_compareFrom_eq_zero h j hj'
    · simp only [ne_eq, hd, not_false_eq_true, if_pos, ite_true] at h
      exact absurd (sub_eq_zero.mp h) hd
  · rcases Nat.eq_or_lt_of_le hj with rfl | hj'
    · obtain ⟨h1, h2⟩ := getD_eq_zero_of_max_le (le_of_not_lt hlt)
      rw [h1, h2]
    · obtain ⟨h1, h2⟩ := getD_eq_zero_of_max_le
        (le_trans (le_of_not_lt hlt) (Nat.le_of_lt hj'))
      rw [h1, h2]
termination_by max a.length b.length - i

/-- If position `j ≥ i` is the first difference at or after `i`, the loop
returns exactly the difference there. -/
theorem compareFrom_eq_sub_of_firstDiff {a b : AbstractDate} {i j : Nat}
    (hij : i ≤ j) (hpre : ∀ k, i ≤ k → k < j → a.getD k 0 = b.getD k 0)
    (hdiff : a.getD j 0 ≠ b.getD j 0) :
    compareFrom a b i = a.getD j 0 - b.getD j 0 := by
  have hjlt : j < max a.length b.length := by
    by_contra hge
    obtain ⟨h1, h2⟩ := getD_eq_zero_of_max_le (le_of_not_lt hge)
    exact hdiff (h1.trans h2.symm)
  have hilt : i < max a.length b.length := lt_of_le_of_lt hij hjlt
  rw [compareFrom_step hilt]
  rcases Nat.eq_or_lt_of_le hij with rfl | hij'
  · rw [if_pos hdiff]
  · have hi := hpre i le_rfl hij'
    simp only [hi, ne_eq, not_true_eq_false, if_neg, ite_false]
    exact compareFrom_eq_sub_of_firstDiff hij'
      (fun k hk hk' => hpre k (le_trans (Nat.le_succ i) hk) hk') hdiff
termination_by max a.length b.length - i

/-- If the loop result is nonzero, it is the difference at the first
differing position at or after `i`. -/
theorem compareFrom_firstDiff {a b : AbstractDate} {i : Nat}
    (h : compareFrom a b i ≠ 0) :
    ∃ j, i ≤ j ∧ (∀ k, i ≤ k → k < j → a.getD k 0 = b.getD k 0) ∧
      a.getD j 0 ≠ b.getD j 0 ∧ compareFrom a b i = a.getD j 0 - b.getD j 0 := by
  by_cases hlt : i < max a.length b.length
  · by_cases hd : a.getD i 0 = b.getD i 0
    · rw [compareFrom_step hlt] at h
      simp only [hd, ne_eq, not_true_eq_false, if_neg, ite_false] at h
      obtain ⟨j, hij, hpre, hdiff, heq⟩ := compareFrom_firstDiff h
      refine ⟨j, le_trans (Nat.le_succ i) hij, ?_, hdiff, ?_⟩
      · intro k hk hk'
        rcases Nat.eq_or_lt_of_le hk with rfl | hk''
        · exact hd
        · exact hpre k hk'' hk'
      · rw [compareFrom_step hlt]
        simp only [hd, ne_eq, not_true_eq_false, if_neg, ite_false]
        exact heq
    · refine ⟨i, le_rfl, fun k hk hk' => absurd (lt_of_le_of_lt hk hk') (lt_irrefl _), hd, ?_⟩
      rw [compareFrom_step hlt, if_pos hd]
  · exact absurd (compareFrom_stop hlt) h
termination_by max a.length b.length - i

/-- `compare(a, a) = 0`. -/
theorem compareAbstractDates_self (a : AbstractDate) : compareAbstractDates a a = 0 := by
  rw [compareAbstractDates_def]
  exact compareFrom_eq_zero_of_agree (fun _ _ => rfl)

/-- `compare(a, b) = -compare(b, a)`. -/
theorem compareAbstractDates_antisymm (a b : AbstractDate) :
    compareAbstractDates a b = -compareAbstractDates b a := by
  rw [compareAbstractDates_def, compareAbstractDates_def]
  by_cases h : compareFrom a b 0 = 0
  · have hagree := agree_of_compareFrom_eq_zero h
    have hba : compareFrom b a 0 = 0 :=
      compareFrom_eq_zero_of_agree (fun j hj => (hagree j hj).symm)
    rw [h, hba, neg_zero]
  · obtain ⟨j, hij, hpre, hdiff, heq⟩ := compareFrom_firstDiff h
    have hba : compareFrom b a 0 = b.getD j 0 - a.getD j 0 :=
      compareFrom_eq_sub_of_firstDiff hij
        (fun k hk hk' => (hpre k hk hk').symm) (fun hc => hdiff hc.symm)
    rw [heq, hba]
    ring

/-- Strict transitivity of the comparator. -/
theorem compareAbstractDates_trans {a b c : AbstractDate}
    (hab : compareAbstractDates a b < 0) (hbc : compareAbstractDates b c < 0) :
    compareAbstractDates a c < 0 := by
  rw [compareAbstractDates_def] at hab hbc ⊢
  obtain ⟨j1, _, hpre1, hdiff1, heq1⟩ := compareFrom_firstDiff (a := a) (b := b)
    (ne_of_lt hab)
  obtain ⟨j2, _, hpre2, hdiff2, heq2⟩ := compareFrom_firstDiff (a := b) (b := c)
    (ne_of_lt hbc)
  have hab' : a.getD j1 0 < b.getD j1 0 := by
    have := hab
    rw [heq1] at this
    omega
  have hbc' : b.getD j2 0 < c.getD j2 0 := by
    have := hbc
    rw [heq2] at this
    omega
  set j := min j1 j2 with hj
  have hpre : ∀ k, 0 ≤ k → k < j → a.getD k 0 = c.getD k 0 := by
    intro k _ hk
    have h1 := hpre1 k (Nat.zero_le k) (lt_of_lt_of_le hk (min_le_left _ _))
    have h2 := hpre2 k (Nat.zero_le k) (lt_of_lt_of_le hk (min_le_right _ _))
    rw [h1, h2]
  have hac : a.getD j 0 < c.getD j 0 := by
    rcases lt_trichotomy j1 j2 with h | h | h
    · have hje : j = j1 := min_eq_left (le_of_lt h)
      have hb : b.getD j1 0 = c.getD j1 0 := hpre2 j1 (Nat.zero_le _) h
      rw [hje, ← hb]
      exact hab'
    · have hje : j = j1 := min_eq_left (le_of_eq h)
      rw [hje]
      exact lt_trans hab' (h ▸ hbc')
    · have hje : j = j2 := min_eq_right (le_of_lt h)
      have hb : a.getD j2 0 = b.getD j2 0 := hpre1 j2 (Nat.zero_le _) h
      rw [hje, hb]
      exact hbc'
  have := compareFrom_eq_sub_of_firstDiff (i := 0) (Nat.zero_le j) hpre (ne_of_lt hac)
  rw [this]
  omega


-- ═══════════ Lexicographic padding spec (for the comparator claim) ═══════════

/-- Pad (or cut) a date to exactly `n` positions, missing positions read as
0 — the sequence the spec's "lexicographic comparison over max(len(a),
len(b)) positions, each missing position treated as 0" talks about. -/
def padTo (a : AbstractDate) (n : Nat) : List Int :=
  (List.range n).map (fun i => a.getD i 0)

/-- Plain structural lexicographic comparison of two integer lists. -/
def lexOrdInt : List Int → List Int → Ordering
  | [], [] => Ordering.eq
  | [], _ :: _ => Ordering.lt
  | _ :: _, [] => Ordering.gt
  | x :: xs, y :: ys =>
      if x < y then Ordering.lt
      else if y < x then Ordering.gt
      else lexOrdInt xs ys

theorem lexOrdInt_refl : ∀ u : List Int, lexOrdInt u u = Ordering.eq
  | [] => rfl
  | x :: xs => by
      rw [lexOrdInt]
      simp [lt_irrefl, lexOrdInt_refl xs]

theorem lexOrdInt_swap : ∀ u v : List Int, lexOrdInt v u = (lexOrdInt u v).swap
  | [], [] => rfl
  | [], _ :: _ => rfl
  | _ :: _, [] => rfl
  | x :: xs, y :: ys => by
      rw [lexOrdInt, lexOrdInt]
      by_cases h1 : x < y
      · have h2 : ¬ y < x := not_lt_of_lt h1
        simp [h1, h2, Ordering.swap]
      · by_cases h2 : y < x
        · simp [h1, h2, Ordering.swap]
        · simp [h1, h2, lexOrdInt_swap xs ys]

theorem lexOrdInt_lt_of_firstDiff : ∀ (u v : List Int), u.length = v.length →
    ∀ j : Nat,
    (∀ k, k < j → u.getD k 0 = v.getD k 0) → u.getD j 0 < v.getD j 0 →
    lexOrdInt u v = Ordering.lt
  | [], [], _, j, _, hlt => by simp [List.getD] at hlt
  | [], y :: ys, h, _, _, _ => by simp at h
  | x :: xs, [], h, _, _, _ => by simp at h
  | x :: xs, y :: ys, h, j, hpre, hlt => by
      cases j with
      | zero =>
        simp only [List.getD_cons_zero] at hlt
        rw [lexOrdInt, if_pos hlt]
      | succ j =>
        have h0 := hpre 0 (Nat.succ_pos j)
        simp only [List.getD_cons_zero] at h0
        simp only [List.getD_cons_succ] at hlt
        rw [lexOrdInt, if_neg (h0 ▸ lt_irrefl x), if_neg (h0 ▸ lt_irrefl x)]
        have hlen : xs.length = ys.length := by simpa using h
        exact lexOrdInt_lt_of_firstDiff xs ys hlen j
          (fun k hk => by
            have := hpre (k + 1) (Nat.succ_lt_succ hk)
            simpa only [List.getD_cons_succ] using this)
          hlt

theorem padTo_length (a : AbstractDate) (n : Nat) : (padTo a n).length = n := by
  simp [padTo]

theorem padTo_getD (a : AbstractDate) (n j : Nat) :
    (padTo a n).getD j 0 = if j < n then a.getD j 0 else 0 := by
  by_cases h : j < n
  · rw [if_pos h]
    have hlen : j < (padTo a n).length := by simp [padTo, h]
    rw [List.getD_eq_getElem _ _ hlen]
    simp [padTo]
  · rw [if_neg h]
    exact List.getD_eq_default _ _ (by simpa [padTo] using le_of_not_lt h)

/-- Positions of the two pads agree exactly when the dates agree there
(positions past `max` length agree automatically). -/
theorem padTo_getD_agree {a b : AbstractDate} {j : Nat} :
    (padTo a (max a.length b.length)).getD j 0
      = (padTo b (max a.length b.length)).getD j 0 ↔ a.getD j 0 = b.getD j 0 := by
  rw [padTo_getD, padTo_getD]
  by_cases h : j < max a.length b.length
  · simp [h]
  · obtain ⟨h1, h2⟩ := getD_eq_zero_of_max_le (le_of_not_lt h)
    simp only [if_neg h, h1, h2]

theorem lexOrdInt_padTo_eq_of_compare_eq {a b : AbstractDate}
    (h : compareAbstractDates a b = 0) :
    lexOrdInt (padTo a (max a.length b.length)) (padTo b (max a.length b.length))
      = Ordering.eq := by
  rw [compareAbstractDates_def] at h
  have hagree := agree_of_compareFrom_eq_zero h
  have : padTo a (max a.length b.length) = padTo b (max a.length b.length) := by
    unfold padTo
    exact List.map_congr_left (fun i hi => hagree i (Nat.zero_le i))
  rw [this]
  exact lexOrdInt_refl _

theorem lexOrdInt_padTo_lt_of_compare_lt {a b : AbstractDate}
    (h : compareAbstractDates a b < 0) :
    lexOrdInt (padTo a (max a.length b.length)) (padTo b (max a.length b.length))
      = Ordering.lt := by
  rw [compareAbstractDates_def] at h
  obtain ⟨j, _, hpre, hdiff, heq⟩ := compareFrom_firstDiff (ne_of_lt h)
  have hlt : a.getD j 0 < b.getD j 0 := by
    rw [heq] at h
    omega
  refine lexOrdInt_lt_of_firstDiff _ _ (by rw [padTo_length, padTo_length]) j ?_ ?_
  · intro k hk
    exact padTo_getD_agree.mpr (hpre k (Nat.zero_le k) hk)
  · rw [padTo_getD, padTo_getD]
    have hjlt : j < max a.length b.length := by
      by_contra hge
      obtain ⟨h1, h2⟩ := getD_eq_zero_of_max_le (le_of_not_lt hge)
      rw [h1, h2] at hlt
      exact lt_irrefl _ hlt
    simpa [hjlt] using hlt

theorem lexOrdInt_padTo_gt_of_compare_gt {a b : AbstractDate}
    (h : 0 < compareAbstractDates a b) :
    lexOrdInt (padTo a (max a.length b.length)) (padTo b (max a.length b.length))
      = Ordering.gt := by
  have hba : compareAbstractDates b a < 0 := by
    have := compareAbstractDates_antisymm b a
    omega
  have := lexOrdInt_padTo_lt_of_compare_lt hba
  rw [max_comm b.length a.length] at this
  have hswap := lexOrdInt_swap (padTo a (max a.length b.length))
    (padTo b (max a.length b.length))
  rw [this] at hswap
  cases hcase : lexOrdInt (padTo a (max a.length b.length))
      (padTo b (max a.length b.length)) <;>
    rw [hcase] at hswap <;> simp [Ordering.swap] at hswap ⊢

-- ═══════════════ dateToOrdinal (layoutEngine.ts 34-43) ═══════════════

/-- `dateToOrdinal` from layoutEngine.ts: flatten a date into a single
ordinal using `multipliers[fromEnd] ?? 10^(fromEnd + 2)` as the
per-position weight. -/
def dateToOrdinal (date : AbstractDate) : Int :=
  let multipliers : List Int := [1, 30, 365, 365000, 365000000]
  (List.range date.length).foldl
    (fun acc i =>
      let fromEnd := date.length - 1 - i
      let mult := ((multipliers.get? fromEnd).getD ((10 : Int) ^ (fromEnd + 2)))
      acc + date.getD i 0 * mult)
    0

/-- The spec's per-position weight table, position counted from the
least-significant end. -/
def specWeight : Nat → Int
  | 0 => 1
  | 1 => 30
  | 2 => 365
  | 3 => 365000
  | 4 => 365000000
  | n + 5 => (10 : Int) ^ (n + 5 + 2)

theorem specWeight_eq (n : Nat) :
    specWeight n = (([1, 30, 365, 365000, 365000000] : List Int).get? n).getD
      ((10 : Int) ^ (n + 2)) := by
  match n with
  | 0 => rfl
  | 1 => rfl
  | 2 => rfl
  | 3 => rfl
  | 4 => rfl
  | n + 5 => rfl

theorem foldl_add_eq_sum (f : Nat → Int) :
    ∀ (l : List Nat) (acc : Int), l.foldl (fun a i => a + f i) acc = acc + (l.map f).sum
  | [], acc => by simp
  | i :: is, acc => by
    simp only [List.foldl_cons, List.map_cons, List.sum_cons]
    rw [foldl_add_eq_sum f is (acc + f i)]
    ring

-- ═══════════════════ Claims C1 and C8 ═══════════════════

/-- Claim C1: `compareAbstractDates` is a total order up to trailing-zero
padding: `compare(a,a) = 0`; `compare(a,b)` and `compare(b,a)` are exact
negatives of each other (hence of opposite signs); strict transitivity
holds; and the sign of the result is exactly the result of lexicographic
comparison over `max(len(a), len(b))` positions with every missing
position treated as 0. -/
theorem claim_C1 (a b c : AbstractDate) :
    compareAbstractDates a a = 0
    ∧ compareAbstractDates a b = -compareAbstractDates b a
    ∧ (compareAbstractDates a b < 0 → compareAbstractDates b c < 0 →
        compareAbstractDates a c < 0)
    ∧ (compareAbstractDates a b < 0 ↔
        lexOrdInt (padTo a (max a.length b.length)) (padTo b (max a.length b.length))
          = Ordering.lt)
    ∧ (compareAbstractDates a b = 0 ↔
        lexOrdInt (padTo a (max a.length b.length)) (padTo b (max a.length b.length))
          = Ordering.eq)
    ∧ (0 < compareAbstractDates a b ↔
        lexOrdInt (padTo a (max a.length b.length)) (padTo b (max a.length b.length))
          = Ordering.gt) := by
  refine ⟨compareAbstractDates_self a, compareAbstractDates_antisymm a b,
    fun h1 h2 => compareAbstractDates_trans h1 h2, ?_, ?_, ?_⟩
  · constructor
    · exact lexOrdInt_padTo_lt_of_compare_lt
    · intro h
      rcases lt_trichotomy (compareAbstractDates a b) 0 with hc | hc | hc
      · exact hc
      · rw [lexOrdInt_padTo_eq_of_compare_eq hc] at h
        exact absurd h (by decide)
      · rw [lexOrdInt_padTo_gt_of_compare_gt hc] at h
        exact absurd h (by decide)
  · constructor
    · exact lexOrdInt_padTo_eq_of_compare_eq
    · intro h
      rcases lt_trichotomy (compareAbstractDates a b) 0 with hc | hc | hc
      · rw [lexOrdInt_padTo_lt_of_compare_lt hc] at h
        exact absurd h (by decide)
      · exact hc
      · rw [lexOrdInt_padTo_gt_of_compare_gt hc] at h
        exact absurd h (by decide)
  · constructor
    · exact lexOrdInt_padTo_gt_of_compare_gt
    · intro h
      rcases lt_trichotomy (compareAbstractDates a b) 0 with hc | hc | hc
      · rw [lexOrdInt_padTo_lt_of_compare_lt hc] at h
        exact absurd h (by decide)
      · rw [lexOrdInt_padTo_eq_of_compare_eq hc] at h
        exact absurd h (by decide)
      · exact hc

/-- Claim C8: `dateToOrdinal` is the weighted sum of the segments, the
weight of the `i`-th position from the least-significant end being
1, 30, 365, 365000, 365000000 for `i = 0..4` and `10^(i+2)` beyond. -/
theorem claim_C8 (date : AbstractDate) :
    dateToOrdinal date =
      ((List.range date.length).map
        (fun i => date.getD i 0 * specWeight (date.length - 1 - i))).sum := by
  unfold dateToOrdinal
  rw [foldl_add_eq_sum
    (fun i => date.getD i 0 *
      ((([1, 30, 365, 365000, 365000000] : List Int).get?
        (date.length - 1 - i)).getD ((10 : Int) ^ (date.length - 1 - i + 2))))]
  rw [zero_add]
  congr 1
  apply List.map_congr_left
  intro i _
  rw [specWeight_eq]

-- ═══════════ Comparator order theory (for the stable sorts) ═══════════

/-- If `a` and `b` compare equal, they compare identically against any
third date. -/
theorem compare_congr_left {a b : AbstractDate} (h : compareAbstractDates a b = 0)
    (c : AbstractDate) : compareAbstractDates a c = compareAbstractDates b c := by
  rw [compareAbstractDates_def] at h
  rw [compareAbstractDates_def, compareAbstractDates_def]
  have hagree := agree_of_compareFrom_eq_zero h
  by_cases hbc : compareFrom b c 0 = 0
  · have hbcagree := agree_of_compareFrom_eq_zero hbc
    rw [hbc]
    exact compareFrom_eq_zero_of_agree
      (fun j hj => (hagree j hj).trans (hbcagree j hj))
  · obtain ⟨j, hij, hpre, hdiff, heq⟩ := compareFrom_firstDiff hbc
    have : compareFrom a c 0 = a.getD j 0 - c.getD j 0 :=
      compareFrom_eq_sub_of_firstDiff hij
        (fun k hk hk' => (hagree k hk).trans (hpre k hk hk'))
        (fun hc => hdiff ((hagree j hij).symm.trans hc))
    rw [this, hagree j hij, heq]

/-- Non-strict transitivity of the comparator. -/
theorem compareAbstractDates_le_trans {a b c : AbstractDate}
    (hab : compareAbstractDates a b ≤ 0) (hbc : compareAbstractDates b c ≤ 0) :
    compareAbstractDates a c ≤ 0 := by
  rcases lt_or_eq_of_le hab with hab' | hab'
  · rcases lt_or_eq_of_le hbc with hbc' | hbc'
    · exact le_of_lt (compareAbstractDates_trans hab' hbc')
    · have hcb : compareAbstractDates c b = 0 := by
        have := compareAbstractDates_antisymm c b
        omega
      have := compare_congr_left hcb a
      have hac := compareAbstractDates_antisymm a c
      have hab2 := compareAbstractDates_antisymm a b
      omega
  · have := compare_congr_left hab' c
    omega

/-- Totality of the comparator's non-strict order. -/
theorem compareAbstractDates_le_total (a b : AbstractDate) :
    compareAbstractDates a b ≤ 0 ∨ compareAbstractDates b a ≤ 0 := by
  have := compareAbstractDates_antisymm a b
  omega

-- ═══════════ Stable sorts (JS Array.prototype.sort is stable) ═══════════

/-- The non-strict order used by every `sort((a, b) => compare(a.date,
b.date))` call: stable sorting by it is what the JS stable sort does. -/
def dateLe (a b : StoryEvent) : Prop := compareAbstractDates a.date b.date ≤ 0

instance : DecidableRel dateLe := fun a b => inferInstanceAs (Decidable (_ ≤ _))

instance : IsTotal StoryEvent dateLe :=
  ⟨fun a b => compareAbstractDates_le_total a.date b.date⟩

instance : IsTrans StoryEvent dateLe :=
  ⟨fun _ _ _ => compareAbstractDates_le_trans⟩

/-- `[...events].sort((a, b) => compareAbstractDates(a.date, b.date))`. -/
def sortByDate (events : List StoryEvent) : List StoryEvent :=
  List.insertionSort dateLe events

-- ═══════════ JS Array.indexOf / index access helpers ═══════════

/-- Index of the first occurrence, if any. -/
def idxOf? (s : String) : List String → Option Nat
  | [] => none
  | x :: xs => if x = s then some 0 else (idxOf? s xs).map (· + 1)

/-- JS `Array.prototype.indexOf`: first index or `-1`. -/
def jsIndexOfStr (l : List String) (s : String) : Int :=
  match idxOf? s l with
  | some i => (i : Int)
  | none => -1

theorem idxOf?_get : ∀ {l : List String} {s : String} {i : Nat},
    idxOf? s l = some i → l.get? i = some s
  | [], s, i, h => by simp [idxOf?] at h
  | x :: xs, s, i, h => by
    rw [idxOf?] at h
    by_cases hx : x = s
    · rw [if_pos hx] at h
      injection h with h
      subst h
      simp [hx]
    · rw [if_neg hx] at h
      match hi : idxOf? s xs with
      | none => rw [hi] at h; simp at h
      | some j =>
        rw [hi] at h
        simp only [Option.map_some'] at h
        injection h with h
        subst h
        simpa using idxOf?_get hi

theorem idxOf?_isSome_of_mem : ∀ {l : List String} {s : String},
    s ∈ l → ∃ i, idxOf? s l = some i
  | x :: xs, s, h => by
    rw [idxOf?]
    by_cases hx : x = s
    · exact ⟨0, by rw [if_pos hx]⟩
    · have hs : s ∈ xs := by
        rcases List.mem_cons.mp h with rfl | h'
        · exact absurd rfl hx
        · exact h'
      obtain ⟨i, hi⟩ := idxOf?_isSome_of_mem hs
      exact ⟨i + 1, by rw [if_neg hx, hi, Option.map_some']⟩

/-- On members, `indexOf` determines the element. -/
theorem jsIndexOfStr_inj {l : List String} {a b : String}
    (ha : a ∈ l) (hb : b ∈ l) (h : jsIndexOfStr l a = jsIndexOfStr l b) : a = b := by
  obtain ⟨i, hi⟩ := idxOf?_isSome_of_mem ha
  obtain ⟨j, hj⟩ := idxOf?_isSome_of_mem hb
  unfold jsIndexOfStr at h
  rw [hi, hj] at h
  have hij : i = j := by
    have h' : (i : Int) = (j : Int) := h
    exact_mod_cast h'
  subst hij
  have h1 := idxOf?_get hi
  have h2 := idxOf?_get hj
  rw [h1] at h2
  exact Option.some.inj h2

/-- `idxOf?` of a prefix-free decomposition. -/
theorem idxOf?_append_cons : ∀ {u : List String} {s : String} (w : List String),
    s ∉ u → idxOf? s (u ++ s :: w) = some u.length
  | [], s, w, _ => by simp [idxOf?]
  | x :: xs, s, w, h => by
    have hx : x ≠ s := fun hc => h (hc ▸ List.mem_cons_self x xs)
    have hs : s ∉ xs := fun hc => h (List.mem_cons_of_mem x hc)
    rw [List.cons_append, idxOf?, if_neg hx, idxOf?_append_cons w hs,
      Option.map_some']
    rfl

-- ═══════════ JS Map modelling ═══════════

/-- JS `Map.prototype.set`: overwrite in place if the key exists, append
otherwise. -/
def mapSet {α : Type} (m : List (String × α)) (k : String) (v : α) :
    List (String × α) :=
  if m.any (fun p => p.1 == k) then
    m.map (fun p => if p.1 == k then (k, v) else p)
  else m ++ [(k, v)]

/-- Building a JS `Map` from a run of `set` calls. -/
def mapSetFold {α : Type} (l : List (String × α)) : List (String × α) :=
  l.foldl (fun m kv => mapSet m kv.1 kv.2) []

theorem mapSet_of_not_mem {α : Type} {m : List (String × α)} {k : String}
    (h : ¬ k ∈ m.map Prod.fst) (v : α) : mapSet m k v = m ++ [(k, v)] := by
  rw [mapSet, if_neg]
  simp only [List.any_eq_true, beq_iff_eq, not_exists, not_and]
  intro p hp hpk
  exact h (hpk ▸ List.mem_map_of_mem Prod.fst hp)

theorem mapSetFold_aux {α : Type} : ∀ {l m : List (String × α)},
    (l.map Prod.fst).Nodup → (∀ k, k ∈ l.map Prod.fst → ¬ k ∈ m.map Prod.fst) →
    l.foldl (fun m kv => mapSet m kv.1 kv.2) m = m ++ l
  | [], m, _, _ => by simp
  | (k, v) :: rest, m, hnd, hdisj => by
    simp only [List.foldl_cons]
    rw [mapSet_of_not_mem (hdisj k (by simp)) v]
    rw [mapSetFold_aux (by simpa using hnd.of_cons) ?_]
    · simp
    · intro k' hk' hmem
      simp only [List.map_append, List.mem_append] at hmem
      rcases hmem with hmem | hmem
      · exact hdisj k' (by simp [hk']) hmem
      · simp only [List.map_cons, List.map_nil, List.mem_singleton] at hmem
        subst hmem
        simp only [List.map_cons, List.nodup_cons] at hnd
        exact hnd.1 hk'

/-- Setting distinct keys in order just builds the entry list. -/
theorem mapSetFold_eq_self {α : Type} {l : List (String × α)}
    (h : (l.map Prod.fst).Nodup) : mapSetFold l = l := by
  rw [mapSetFold, mapSetFold_aux h (fun k _ hc => by simp at hc)]
  simp

/-- First-match association lookup (`find?` on the key), the JS `Map.get`
on maps with unique keys. -/
def assocFind {α : Type} (m : List (String × α)) (k : String) : Option α :=
  (m.find? (fun p => p.1 == k)).map (fun p => p.2)

theorem assocFind_append_left {α : Type} {u : List (String × α)} {k : String}
    (h : ¬ k ∈ u.map Prod.fst) (w : List (String × α)) :
    assocFind (u ++ w) k = assocFind w k := by
  rw [assocFind, assocFind, List.find?_append]
  have : u.find? (fun p => p.1 == k) = none := by
    rw [List.find?_eq_none]
    intro p hp
    simp only [beq_iff_eq]
    intro hpk
    exact h (hpk ▸ List.mem_map_of_mem Prod.fst hp)
  rw [this]
  rfl

theorem assocFind_cons_self {α : Type} (k : String) (v : α)
    (w : List (String × α)) : assocFind ((k, v) :: w) k = some v := by
  rw [assocFind]
  simp [List.find?_cons_of_pos]

theorem assocFind_cons_ne {α : Type} {k k' : String} (h : k' ≠ k) (v : α)
    (w : List (String × α)) : assocFind ((k', v) :: w) k = assocFind w k := by
  rw [assocFind, assocFind, List.find?_cons_of_neg]
  simp [h]

/-- Lookup of a member entry in a list with unique keys. -/
theorem assocFind_of_mem {α : Type} : ∀ {m : List (String × α)} {k : String} {v : α},
    (m.map Prod.fst).Nodup → (k, v) ∈ m → assocFind m k = some v
  | (k', v') :: rest, k, v, hnd, hmem => by
    rcases List.mem_cons.mp hmem with heq | hmem'
    · injection heq with h1 h2
      subst h1; subst h2
      exact assocFind_cons_self k v rest
    · have hk : k' ≠ k := by
        intro hc
        subst hc
        simp only [List.map_cons, List.nodup_cons] at hnd
        exact hnd.1 (List.mem_map_of_mem Prod.fst hmem')
      rw [assocFind_cons_ne hk]
      exact assocFind_of_mem (by simpa using (List.map_cons Prod.fst _ rest ▸ hnd).of_cons) hmem'

-- ═══════════════ calculateLayout (layoutEngine.ts 79-131) ═══════════════

/-- `Math.min(...list)` over a nonempty list (the empty case is never
reached: `calculateLayout` returns early on empty input). -/
def listMinInt (l : List Int) : Int := l.foldl min (l.headD 0)

/-- Arc discovery: append each arc name the first time it is seen while
walking the sorted scenes. -/
def arcOrderOf (sorted : List StoryEvent) : List String :=
  sorted.foldl (fun acc e => if e.arc ∈ acc then acc else acc ++ [e.arc]) []

/-- The absolute-mode x clamp of `calculateLayout`: the candidate
`(ordinal - minOrdinal) * xScale`, raised to
`lastX[arc] + nodeWidth + nodeGapX` when the arc already emitted a node
closer than that. -/
def absClampX (cfg : LayoutConfig) (lastX : List (String × ℚ)) (arc : String)
    (cand : ℚ) : ℚ :=
  match assocFind lastX arc with
  | none => cand
  | some lx =>
      if cand < lx + cfg.nodeWidth + cfg.nodeGapX
      then lx + cfg.nodeWidth + cfg.nodeGapX else cand

/-- The per-scene loop of `calculateLayout`: emit `(nodeId, position)` in
order, carrying the running index `i` and the `lastXPerArc` map. -/
def layoutEmit (cfg : LayoutConfig) (arcOrder : List String) (minOrd : Int) :
    List (StoryEvent × Int) → Nat → List (String × ℚ) → List (String × Pos)
  | [], _, _ => []
  | (e, o) :: rest, i, lastX =>
    let y : ℚ := (jsIndexOfStr arcOrder e.arc : ℚ) * cfg.arcSpacing
    match cfg.layoutMode with
    | LayoutMode.ordered =>
        let x : ℚ := (i : ℚ) * (cfg.nodeWidth + cfg.nodeGapX * 2)
        (e.nodeId, ⟨x, y⟩) :: layoutEmit cfg arcOrder minOrd rest (i + 1) lastX
    | LayoutMode.absolute =>
        let x : ℚ := absClampX cfg lastX e.arc (((o - minOrd : Int) : ℚ) * cfg.xScale)
        (e.nodeId, ⟨x, y⟩) ::
          layoutEmit cfg arcOrder minOrd rest (i + 1) (mapSet lastX e.arc x)

/-- `calculateLayout` from layoutEngine.ts: sort by date, compute ordinals
and the arc lanes, then walk the sorted scenes emitting positions into the
result `Map`. -/
def calculateLayout (events : List StoryEvent) (cfg : LayoutConfig) :
    List (String × Pos) :=
  if events.isEmpty then []
  else
    let sorted := sortByDate events
    let ordinals := sorted.map (fun e => dateToOrdinal e.date)
    let minOrd := listMinInt ordinals
    let arcOrder := arcOrderOf sorted
    mapSetFold (layoutEmit cfg arcOrder minOrd (sorted.zip ordinals) 0 [])

/-- `Map.get` on the layout result. -/
def layoutLookup (m : List (String × Pos)) (id : String) : Option Pos :=
  assocFind m id

theorem zip_map_self {α β : Type} (f : α → β) :
    ∀ l : List α, l.zip (l.map f) = l.map (fun a => (a, f a))
  | [] => rfl
  | a :: l => by simp [zip_map_self f l]

theorem assocFind_mapSet_self {α : Type} :
    ∀ (m : List (String × α)) (k : String) (v : α),
    assocFind (mapSet m k v) k = some v
  | [], k, v => by
    rw [mapSet]
    simp [assocFind_cons_self]
  | (k', v') :: rest, k, v => by
    rw [mapSet]
    by_cases hk : k' = k
    · subst hk
      simp only [List.any_cons, beq_self_eq_true, Bool.true_or, if_pos]
      simp only [List.map_cons, beq_self_eq_true, if_pos]
      exact assocFind_cons_self k' v _
    · have hbeq : (k' == k) = false := beq_eq_false_iff_ne.mpr hk
      simp only [List.any_cons, hbeq, Bool.false_or]
      by_cases hany : rest.any (fun p => p.1 == k)
      · rw [if_pos hany]
        simp only [List.map_cons, hbeq, Bool.false_eq_true, if_neg, if_false]
        rw [assocFind_cons_ne hk]
        have := assocFind_mapSet_self rest k v
        rwa [mapSet, if_pos hany] at this
      · rw [if_neg hany]
        rw [List.cons_append, assocFind_cons_ne hk]
        have hnot : ¬ k ∈ rest.map Prod.fst := by
          intro hc
          obtain ⟨p, hp, hpk⟩ := List.mem_map.mp hc
          exact hany (List.any_eq_true.mpr ⟨p, hp, beq_iff_eq.mpr hpk⟩)
        rw [assocFind_append_left hnot]
        exact assocFind_cons_self k v []

theorem assocFind_mapSet_ne {α : Type} {a k : String} (hne : a ≠ k) :
    ∀ (m : List (String × α)) (v : α),
    assocFind (mapSet m k v) a = assocFind m a
  | [], v => by
    rw [mapSet]
    simp only [List.any_nil, Bool.false_eq_true, if_neg, if_false, List.nil_append]
    rw [assocFind_cons_ne (fun hc => hne hc.symm)]
  | (k', v') :: rest, v => by
    rw [mapSet]
    by_cases hany : ((k', v') :: rest).any (fun p => p.1 == k)
    · rw [if_pos hany]
      simp only [List.map_cons]
      by_cases hk : k' = k
      · subst hk
        simp only [beq_self_eq_true, if_pos]
        rw [assocFind_cons_ne (fun hc => hne hc.symm),
          assocFind_cons_ne (fun hc => hne hc.symm)]
        by_cases hany' : rest.any (fun p => p.1 == k')
        · have := assocFind_mapSet_ne hne rest v
          rwa [mapSet, if_pos hany'] at this
        · have hmap : rest.map (fun p => if p.1 == k' then (k', v) else p) = rest := by
            have hall : ∀ p ∈ rest, (if p.1 == k' then (k', v) else p) = p := by
              intro p hp
              have hb : (p.1 == k') = false := by
                by_contra hc
                exact hany' (List.any_eq_true.mpr ⟨p, hp,
                  eq_true_of_ne_false (by simpa using hc)⟩)
              simp [hb]
            rw [List.map_congr_left hall]
            exact List.map_id rest
          rw [hmap]
      · have hbeq : (k' == k) = false := beq_eq_false_iff_ne.mpr hk
        simp only [hbeq, Bool.false_eq_true, if_neg, if_false]
        by_cases hk'a : k' = a
        · subst hk'a
          rw [assocFind_cons_self, assocFind_cons_self]
        · rw [assocFind_cons_ne hk'a, assocFind_cons_ne hk'a]
          have hany' : rest.any (fun p => p.1 == k) := by
            simpa [hbeq] using hany
          have := assocFind_mapSet_ne hne rest v
          rwa [mapSet, if_pos hany'] at this
    · rw [if_neg hany]
      by_cases hk'a : k' = a
      · subst hk'a
        rw [List.cons_append, assocFind_cons_self, assocFind_cons_self]
      · rw [List.cons_append, assocFind_cons_ne hk'a, assocFind_cons_ne hk'a]
        have hany' : ¬ rest.any (fun p => p.1 == k) := by
          intro hc
          exact hany (by simp [List.any_cons, hc])
        have := assocFind_mapSet_ne hne rest v
        rwa [mapSet, if_neg hany'] at this


theorem absClampX_ge {cfg : LayoutConfig} {lastX : List (String × ℚ)}
    {arc : String} {lx : ℚ} (h : assocFind lastX arc = some lx) (cand : ℚ) :
    lx + cfg.nodeWidth + cfg.nodeGapX ≤ absClampX cfg lastX arc cand := by
  rw [absClampX, h]
  dsimp only
  by_cases hc : cand < lx + cfg.nodeWidth + cfg.nodeGapX
  · rw [if_pos hc]
  · rw [if_neg hc]
    exact le_of_not_lt hc

theorem layoutEmit_length (cfg : LayoutConfig) (ao : List String) (mo : Int) :
    ∀ (l : List (StoryEvent × Int)) (i : Nat) (m : List (String × ℚ)),
    (layoutEmit cfg ao mo l i m).length = l.length
  | [], _, _ => by cases hm : cfg.layoutMode <;> rfl
  | (e, o) :: rest, i, m => by
    cases hm : cfg.layoutMode <;>
      simp [layoutEmit, hm, layoutEmit_length cfg ao mo rest]

/-- Each emitted entry keeps its scene's node id and gets
`Y = arcIndex * arcSpacing`. -/
theorem layoutEmit_get?_shape (cfg : LayoutConfig) (ao : List String) (mo : Int) :
    ∀ (l : List (StoryEvent × Int)) (i : Nat) (m : List (String × ℚ))
      (j : Nat) (e : StoryEvent) (o : Int), l.get? j = some (e, o) →
    ∃ x : ℚ, (layoutEmit cfg ao mo l i m).get? j =
      some (e.nodeId, ⟨x, (jsIndexOfStr ao e.arc : ℚ) * cfg.arcSpacing⟩)
  | [], _, _, j, e, o, h => by simp at h
  | (e0, o0) :: rest, i, m, 0, e, o, h => by
    simp only [List.get?_cons_zero] at h
    injection h with h
    injection h with h1 h2
    subst h1
    cases hm : cfg.layoutMode <;>
      · simp only [layoutEmit, hm, List.get?_cons_zero]
        exact ⟨_, rfl⟩
  | (e0, o0) :: rest, i, m, j + 1, e, o, h => by
    simp only [List.get?_cons_succ] at h
    cases hm : cfg.layoutMode <;>
      · simp only [layoutEmit, hm, List.get?_cons_succ]
        exact layoutEmit_get?_shape cfg ao mo rest _ _ j e o h

/-- In absolute mode, once the `lastXPerArc` map holds `v` for an arc,
every later emission on that arc lands at or beyond
`v + nodeWidth + nodeGapX` (provided `0 ≤ nodeWidth + nodeGapX`). -/
theorem layoutEmit_abs_chain {cfg : LayoutConfig} (ao : List String) (mo : Int)
    (hmode : cfg.layoutMode = LayoutMode.absolute)
    (hgap : 0 ≤ cfg.nodeWidth + cfg.nodeGapX) :
    ∀ (l : List (StoryEvent × Int)) (i : Nat) (m : List (String × ℚ))
      (a : String) (v : ℚ), assocFind m a = some v →
      ∀ (j : Nat) (p : String × Pos) (e : StoryEvent) (o : Int),
        (layoutEmit cfg ao mo l i m).get? j = some p →
        l.get? j = some (e, o) → e.arc = a →
        v + cfg.nodeWidth + cfg.nodeGapX ≤ p.2.x
  | [], _, _, _, _, _, j, p, e, o, hp, hl, _ => by simp at hl
  | (e0, o0) :: rest, i, m, a, v, hv, 0, p, e, o, hp, hl, harc => by
    simp only [List.get?_cons_zero] at hl
    injection hl with hl
    injection hl with hl1 hl2
    subst hl1
    subst hl2
    simp only [layoutEmit, hmode, List.get?_cons_zero] at hp
    injection hp with hp
    subst hp
    simp only
    rw [harc]
    exact absClampX_ge hv _
  | (e0, o0) :: rest, i, m, a, v, hv, j + 1, p, e, o, hp, hl, harc => by
    simp only [List.get?_cons_succ] at hl
    simp only [layoutEmit, hmode, List.get?_cons_succ] at hp
    by_cases h0 : e0.arc = a
    · have hx0ge : v + cfg.nodeWidth + cfg.nodeGapX ≤
          absClampX cfg m e0.arc (((o0 - mo : Int) : ℚ) * cfg.xScale) := by
        rw [h0]
        exact absClampX_ge hv _
      have hfind : assocFind
          (mapSet m e0.arc (absClampX cfg m e0.arc (((o0 - mo : Int) : ℚ) * cfg.xScale)))
          a = some (absClampX cfg m e0.arc (((o0 - mo : Int) : ℚ) * cfg.xScale)) := by
        rw [← h0]
        exact assocFind_mapSet_self m e0.arc _
      have hrec := layoutEmit_abs_chain ao mo hmode hgap rest (i + 1)
        (mapSet m e0.arc (absClampX cfg m e0.arc (((o0 - mo : Int) : ℚ) * cfg.xScale)))
        a _ hfind j p e o hp hl harc
      linarith
    · have hfind : assocFind
          (mapSet m e0.arc (absClampX cfg m e0.arc (((o0 - mo : Int) : ℚ) * cfg.xScale)))
          a = some v := by
        rw [assocFind_mapSet_ne (fun hc => h0 hc.symm)]
        exact hv
      exact layoutEmit_abs_chain ao mo hmode hgap rest (i + 1) _ a v hfind
        j p e o hp hl harc

theorem layoutEmit_map_fst (cfg : LayoutConfig) (ao : List String) (mo : Int) :
    ∀ (l : List (StoryEvent × Int)) (i : Nat) (m : List (String × ℚ)),
    (layoutEmit cfg ao mo l i m).map Prod.fst = l.map (fun p => p.1.nodeId)
  | [], _, _ => by cases hm : cfg.layoutMode <;> rfl
  | (e, o) :: rest, i, m => by
    cases hm : cfg.layoutMode <;>
      simp [layoutEmit, hm, layoutEmit_map_fst cfg ao mo rest]

/-- In absolute mode (with `0 ≤ nodeWidth + nodeGapX`), any two emissions
on the same arc are at least `nodeWidth + nodeGapX` apart, earlier one to
the left. -/
theorem layoutEmit_abs_pair {cfg : LayoutConfig} (ao : List String) (mo : Int)
    (hmode : cfg.layoutMode = LayoutMode.absolute)
    (hgap : 0 ≤ cfg.nodeWidth + cfg.nodeGapX) :
    ∀ (l : List (StoryEvent × Int)) (i : Nat) (m : List (String × ℚ))
      (j1 j2 : Nat) (p1 p2 : String × Pos) (e1 e2 : StoryEvent) (o1 o2 : Int),
      j1 < j2 →
      (layoutEmit cfg ao mo l i m).get? j1 = some p1 →
      (layoutEmit cfg ao mo l i m).get? j2 = some p2 →
      l.get? j1 = some (e1, o1) → l.get? j2 = some (e2, o2) → e1.arc = e2.arc →
      p1.2.x + cfg.nodeWidth + cfg.nodeGapX ≤ p2.2.x
  | [], _, _, j1, j2, p1, p2, e1, e2, o1, o2, hj, hp1, hp2, hl1, hl2, harc => by
      simp at hl1
  | (e0, o0) :: rest, i, m, 0, j2, p1, p2, e1, e2, o1, o2, hj, hp1, hp2, hl1, hl2, harc => by
      obtain ⟨k, rfl⟩ : ∃ k, j2 = k + 1 := ⟨j2 - 1, by omega⟩
      simp only [List.get?_cons_zero] at hl1
      injection hl1 with hl1
      injection hl1 with hl1a hl1b
      subst hl1a
      simp only [List.get?_cons_succ] at hl2
      simp only [layoutEmit, hmode, List.get?_cons_zero, List.get?_cons_succ] at hp1 hp2
      injection hp1 with hp1
      subst hp1
      have hfind : assocFind
          (mapSet m e0.arc (absClampX cfg m e0.arc (((o0 - mo : Int) : ℚ) * cfg.xScale)))
          e2.arc = some (absClampX cfg m e0.arc (((o0 - mo : Int) : ℚ) * cfg.xScale)) := by
        rw [← harc]
        exact assocFind_mapSet_self m e0.arc _
      exact layoutEmit_abs_chain ao mo hmode hgap rest (i + 1) _ e2.arc _ hfind
        k p2 e2 o2 hp2 hl2 rfl
  | (e0, o0) :: rest, i, m, j1 + 1, j2, p1, p2, e1, e2, o1, o2, hj, hp1, hp2, hl1, hl2, harc => by
      obtain ⟨k, rfl⟩ : ∃ k, j2 = k + 1 := ⟨j2 - 1, by omega⟩
      simp only [List.get?_cons_succ] at hl1 hl2
      simp only [layoutEmit, hmode, List.get?_cons_succ] at hp1 hp2
      exact layoutEmit_abs_pair ao mo hmode hgap rest (i + 1) _ j1 k p1 p2 e1 e2 o1 o2
        (by omega) hp1 hp2 hl1 hl2 harc

theorem calculateLayout_eq_emit {scenes : List StoryEvent} (cfg : LayoutConfig)
    (hne : scenes ≠ []) :
    calculateLayout scenes cfg =
      mapSetFold (layoutEmit cfg (arcOrderOf (sortByDate scenes))
        (listMinInt ((sortByDate scenes).map (fun e => dateToOrdinal e.date)))
        ((sortByDate scenes).map (fun e => (e, dateToOrdinal e.date))) 0 []) := by
  unfold calculateLayout
  rw [if_neg (by simp [List.isEmpty_iff, hne])]
  simp only [zip_map_self]

theorem layout_keys_nodup {scenes : List StoryEvent} (cfg : LayoutConfig)
    (hids : (scenes.map StoryEvent.nodeId).Nodup) :
    ((layoutEmit cfg (arcOrderOf (sortByDate scenes))
        (listMinInt ((sortByDate scenes).map (fun e => dateToOrdinal e.date)))
        ((sortByDate scenes).map (fun e => (e, dateToOrdinal e.date))) 0 []).map
      Prod.fst).Nodup := by
  rw [layoutEmit_map_fst, List.map_map]
  have hperm : List.Perm ((sortByDate scenes).map StoryEvent.nodeId)
      (scenes.map StoryEvent.nodeId) :=
    (List.perm_insertionSort dateLe scenes).map _
  exact hperm.nodup_iff.mpr hids

theorem assocFind_of_get? {α : Type} {m : List (String × α)}
    (hnd : (m.map Prod.fst).Nodup) {j : Nat} {p : String × α}
    (h : m.get? j = some p) : assocFind m p.1 = some p.2 :=
  assocFind_of_mem hnd (List.get?_mem h)

/-- Indices in the date-sorted list respect strict date order. -/
theorem sorted_lt_indices {scenes : List StoryEvent} {s1 s2 : StoryEvent}
    {j1 j2 : Nat}
    (hg1 : (sortByDate scenes).get? j1 = some s1)
    (hg2 : (sortByDate scenes).get? j2 = some s2)
    (hlt : compareAbstractDates s1.date s2.date < 0) : j1 < j2 := by
  rcases lt_trichotomy j1 j2 with h | h | h
  · exact h
  · exfalso
    subst h
    rw [hg1] at hg2
    injection hg2 with hg2
    subst hg2
    rw [compareAbstractDates_self] at hlt
    exact lt_irrefl _ hlt
  · exfalso
    have hsorted : List.Pairwise dateLe (sortByDate scenes) :=
      List.sorted_insertionSort dateLe scenes
    rw [List.pairwise_iff_get] at hsorted
    obtain ⟨hlen1, hget1⟩ := List.get?_eq_some.mp hg1
    obtain ⟨hlen2, hget2⟩ := List.get?_eq_some.mp hg2
    have := hsorted ⟨j2, hlen2⟩ ⟨j1, hlen1⟩ h
    rw [hget1, hget2] at this
    have hanti := compareAbstractDates_antisymm s1.date s2.date
    rw [dateLe] at this
    omega

/-- Claim C2 (amended with `0 ≤ nodeWidth + nodeGapX`): in absolute layout
mode, any two same-arc scenes with strictly ordered dates end up at least
`nodeWidth + nodeGapX` apart on the x axis, even when the ordinal gap
scaled by `xScale` is smaller. -/
theorem claim_C2 (scenes : List StoryEvent) (cfg : LayoutConfig)
    (s1 s2 : StoryEvent) (p1 p2 : Pos)
    (hmode : cfg.layoutMode = LayoutMode.absolute)
    (hgap : 0 ≤ cfg.nodeWidth + cfg.nodeGapX)
    (hids : (scenes.map StoryEvent.nodeId).Nodup)
    (h1 : s1 ∈ scenes) (h2 : s2 ∈ scenes)
    (harc : s1.arc = s2.arc)
    (hlt : compareAbstractDates s1.date s2.date < 0)
    (hp1 : layoutLookup (calculateLayout scenes cfg) s1.nodeId = some p1)
    (hp2 : layoutLookup (calculateLayout scenes cfg) s2.nodeId = some p2) :
    p1.x + cfg.nodeWidth + cfg.nodeGapX ≤ p2.x := by
  have hne : scenes ≠ [] := by
    intro hc
    subst hc
    cases h1
  rw [calculateLayout_eq_emit cfg hne] at hp1 hp2
  have hkeys := layout_keys_nodup cfg hids
  rw [mapSetFold_eq_self hkeys] at hp1 hp2
  have hs1 : s1 ∈ sortByDate scenes :=
    (List.perm_insertionSort dateLe scenes).mem_iff.mpr h1
  have hs2 : s2 ∈ sortByDate scenes :=
    (List.perm_insertionSort dateLe scenes).mem_iff.mpr h2
  obtain ⟨j1, hj1⟩ := List.mem_iff_get?.mp hs1
  obtain ⟨j2, hj2⟩ := List.mem_iff_get?.mp hs2
  have hjlt : j1 < j2 := sorted_lt_indices hj1 hj2 hlt
  have hpair1 : ((sortByDate scenes).map (fun e => (e, dateToOrdinal e.date))).get? j1
      = some (s1, dateToOrdinal s1.date) := by
    rw [List.get?_map, hj1]
    rfl
  have hpair2 : ((sortByDate scenes).map (fun e => (e, dateToOrdinal e.date))).get? j2
      = some (s2, dateToOrdinal s2.date) := by
    rw [List.get?_map, hj2]
    rfl
  obtain ⟨x1, he1⟩ := layoutEmit_get?_shape cfg (arcOrderOf (sortByDate scenes))
    (listMinInt ((sortByDate scenes).map (fun e => dateToOrdinal e.date)))
    _ 0 [] j1 s1 _ hpair1
  obtain ⟨x2, he2⟩ := layoutEmit_get?_shape cfg (arcOrderOf (sortByDate scenes))
    (listMinInt ((sortByDate scenes).map (fun e => dateToOrdinal e.date)))
    _ 0 [] j2 s2 _ hpair2
  have hfind1 := assocFind_of_get? hkeys he1
  have hfind2 := assocFind_of_get? hkeys he2
  rw [layoutLookup] at hp1 hp2
  rw [hp1] at hfind1
  rw [hp2] at hfind2
  injection hfind1 with hfind1
  injection hfind2 with hfind2
  have hx := layoutEmit_abs_pair (arcOrderOf (sortByDate scenes))
    (listMinInt ((sortByDate scenes).map (fun e => dateToOrdinal e.date)))
    hmode hgap _ 0 [] j1 j2 _ _ s1 s2 _ _ hjlt he1 he2 hpair1 hpair2 harc
  rw [hfind1, hfind2]
  simpa using hx

unseal Rat.add Rat.mul Rat.sub Rat.inv in
/-- Claim C2 counterexample: the claim as stated quantifies over every
layout config, but with `nodeWidth + nodeGapX < 0` (a config the spec's
§3 invariants do not exclude) three same-arc scenes whose dates rise
while their ordinals fall give `X3 < X1 + nodeWidth + nodeGapX` for the
date-ordered pair (s1, s3). -/
theorem claim_C2_cx :
    compareAbstractDates [0, 100] [2, 0] < 0 ∧
    layoutLookup (calculateLayout
      [⟨"a", "a", "a", [0, 100], none, "A"⟩,
       ⟨"b", "b", "b", [1, 40], none, "A"⟩,
       ⟨"c", "c", "c", [2, 0], none, "A"⟩]
      ⟨LayoutMode.absolute, 1, 1, 0, 0, -10⟩) "a" = some ⟨40, 0⟩ ∧
    layoutLookup (calculateLayout
      [⟨"a", "a", "a", [0, 100], none, "A"⟩,
       ⟨"b", "b", "b", [1, 40], none, "A"⟩,
       ⟨"c", "c", "c", [2, 0], none, "A"⟩]
      ⟨LayoutMode.absolute, 1, 1, 0, 0, -10⟩) "c" = some ⟨20, 0⟩ ∧
    ¬ ((40 : ℚ) + (0 : ℚ) + (-10 : ℚ) ≤ (20 : ℚ)) := by
  decide

unseal Rat.add Rat.mul Rat.sub Rat.inv in
/-- Witness for the amended claim C2 at a concrete two-scene input. -/
theorem claim_C2_witness :
    (0 : ℚ) ≤ (400 : ℚ) + 50 ∧
    ((⟨(0 : ℚ), 0⟩ : Pos).x + (400 : ℚ) + 50 ≤ (⟨(450 : ℚ), 0⟩ : Pos).x) :=
  ⟨by decide,
    claim_C2
      [⟨"a", "a", "a", [1], none, "M"⟩, ⟨"b", "b", "b", [2], none, "M"⟩]
      ⟨LayoutMode.absolute, 1, 400, 400, 300, 50⟩
      ⟨"a", "a", "a", [1], none, "M"⟩ ⟨"b", "b", "b", [2], none, "M"⟩
      ⟨0, 0⟩ ⟨450, 0⟩ rfl (by decide) (by decide)
      (by decide) (by decide) rfl (by decide) (by decide) (by decide)⟩

-- ═══════════ Inverse layout (layoutEngine.ts 139-243) ═══════════

instance : Inhabited StoryEvent := ⟨⟨"", "", "", [], none, ""⟩⟩

/-- Average live y per arc, keyed in first-seen order over `events`
(the `uniqueArcs` map of `getArcFromY`). -/
def arcAvgY (events : List StoryEvent) (canvas : Canvas) : List (String × ℚ) :=
  events.foldl
    (fun acc e =>
      if acc.any (fun p => p.1 == e.arc) then acc
      else
        let arcEvents := events.filter (fun f => f.arc == e.arc)
        let yVals := arcEvents.map
          (fun f => ((canvasLookup canvas f.nodeId).map (fun nd => nd.y)).getD 0)
        let avgY := if yVals.length > 0 then yVals.sum / (yVals.length : ℚ) else 0
        acc ++ [(e.arc, avgY)])
    []

/-- Sorting key for `sortedArcs`: ascending average y (`a[1] - b[1]`). -/
def arcValLe (p q : String × ℚ) : Prop := p.2 ≤ q.2

instance : DecidableRel arcValLe := fun p q => inferInstanceAs (Decidable (_ ≤ _))

/-- `getArcFromY` from layoutEngine.ts. -/
def getArcFromY (y : ℚ) (events : List StoryEvent) (canvas : Canvas)
    (cfg : LayoutConfig) : String :=
  if events.isEmpty then "Main Plot"
  else
    let sortedArcs := List.insertionSort arcValLe (arcAvgY events canvas)
    let targetIndex : Int := ⌊(y + cfg.arcSpacing / 2) / cfg.arcSpacing⌋
    let targetIndex : Int := if targetIndex < 0 then 0 else targetIndex
    if targetIndex ≥ (sortedArcs.length : Int) then
      (sortedArcs.getD (sortedArcs.length - 1) ("", 0)).1
    else (sortedArcs.getD targetIndex.toNat ("", 0)).1

/-- `d` copied with its least-significant segment incremented by 1
(`d[d.length - 1] = (d[d.length - 1] ?? 0) + 1` behind a length guard). -/
def bumpUp (d : AbstractDate) : AbstractDate :=
  if d.length > 0 then d.set (d.length - 1) (d.getD (d.length - 1) 0 + 1) else d

/-- `d` copied with its least-significant segment decremented by 1 and
floored at 1 (`Math.max(1, (d[d.length - 1] ?? 2) - 1)`). -/
def bumpDownFloor1 (d : AbstractDate) : AbstractDate :=
  if d.length > 0 then d.set (d.length - 1) (max 1 (d.getD (d.length - 1) 2 - 1)) else d

/-- Sorting key for the ordered-mode physical node list: ascending x. -/
def pairXLe (p q : StoryEvent × ℚ) : Prop := p.2 ≤ q.2

instance : DecidableRel pairXLe := fun p q => inferInstanceAs (Decidable (_ ≤ _))

/-- `getDateFromX` from layoutEngine.ts. The `today` argument models the
environment clock read by `new Date()` as a (year, month, day) triple. -/
def getDateFromX (x : ℚ) (events : List StoryEvent) (canvas : Canvas)
    (cfg : LayoutConfig) (today : Int × Int × Int) : AbstractDate :=
  if events.isEmpty then [today.1, today.2.1, today.2.2]
  else
    match cfg.layoutMode with
    | LayoutMode.absolute =>
        let ordinals := events.map (fun e => dateToOrdinal e.date)
        let minOrd := listMinInt ordinals
        let targetOrdinal : ℚ := x / cfg.xScale + (minOrd : ℚ)
        let sortedEvents := sortByDate events
        let beforeEvents := sortedEvents.filter
          (fun e => decide ((dateToOrdinal e.date : ℚ) ≤ targetOrdinal))
        let afterEvents := sortedEvents.filter
          (fun e => decide (targetOrdinal < (dateToOrdinal e.date : ℚ)))
        match beforeEvents.getLast?, afterEvents.head? with
        | some b, _ => bumpUp b.date
        | none, some a => bumpDownFloor1 a.date
        | none, none => [2000, 1, 1]
    | LayoutMode.ordered =>
        let physicalNodes := List.insertionSort pairXLe
          (events.map (fun e =>
            (e, ((canvasLookup canvas e.nodeId).map (fun nd => nd.x)).getD 0)))
        let slotWidth := cfg.nodeWidth + cfg.nodeGapX * 2
        let targetIndex : Int := ⌊(x + slotWidth / 2) / slotWidth⌋
        if targetIndex ≤ 0 then
          bumpDownFloor1 (physicalNodes.headD default).1.date
        else if targetIndex ≥ (physicalNodes.length : Int) then
          bumpUp (physicalNodes.getLastD default).1.date
        else
          bumpUp (physicalNodes.getD (targetIndex.toNat - 1) default).1.date

theorem bumpUp_eq_set (d : AbstractDate) :
    bumpUp d = d.set (d.length - 1) (d.getD (d.length - 1) 0 + 1) := by
  cases d with
  | nil => rfl
  | cons x xs => rw [bumpUp, if_pos (by simp)]

theorem bumpDownFloor1_eq_set (d : AbstractDate) :
    bumpDownFloor1 d = d.set (d.length - 1) (max 1 (d.getD (d.length - 1) 2 - 1)) := by
  cases d with
  | nil => rfl
  | cons x xs => rw [bumpDownFloor1, if_pos (by simp)]

-- ═══════════════════ Claims C6 and C10 ═══════════════════

/-- Claim C6: `getDateFromX` in absolute mode: the empty scene list
returns today's calendar date as a 3-segment value; when a "before"
neighbour exists (the chronologically last scene whose ordinal is at most
`x / xScale + minOrdinal`) the result is its date with the
least-significant segment incremented by 1; when only an "after"
neighbour exists the result is its date with the least-significant
segment decremented by 1 and floored at 1. -/
theorem claim_C6 (x : ℚ) (events : List StoryEvent) (canvas : Canvas)
    (cfg : LayoutConfig) (today : Int × Int × Int)
    (hmode : cfg.layoutMode = LayoutMode.absolute) :
    getDateFromX x [] canvas cfg today = [today.1, today.2.1, today.2.2]
    ∧ (events ≠ [] →
        (∀ b : StoryEvent,
          ((sortByDate events).filter
            (fun e => decide ((dateToOrdinal e.date : ℚ) ≤
              x / cfg.xScale +
                (listMinInt (events.map (fun e => dateToOrdinal e.date)) : ℚ)))).getLast?
            = some b →
          getDateFromX x events canvas cfg today =
            b.date.set (b.date.length - 1) (b.date.getD (b.date.length - 1) 0 + 1))
        ∧ (((sortByDate events).filter
            (fun e => decide ((dateToOrdinal e.date : ℚ) ≤
              x / cfg.xScale +
                (listMinInt (events.map (fun e => dateToOrdinal e.date)) : ℚ)))) = [] →
          ∀ a : StoryEvent,
          ((sortByDate events).filter
            (fun e => decide (x / cfg.xScale +
              (listMinInt (events.map (fun e => dateToOrdinal e.date)) : ℚ)
                < (dateToOrdinal e.date : ℚ)))).head? = some a →
          getDateFromX x events canvas cfg today =
            a.date.set (a.date.length - 1) (max 1 (a.date.getD (a.date.length - 1) 2 - 1)))) := by
  refine ⟨rfl, fun hne => ⟨?_, ?_⟩⟩
  · intro b hb
    rw [← bumpUp_eq_set]
    rw [getDateFromX, if_neg (by simp [List.isEmpty_iff, hne]), hmode]
    simp only
    rw [hb]
  · intro hempty a ha
    rw [← bumpDownFloor1_eq_set]
    rw [getDateFromX, if_neg (by simp [List.isEmpty_iff, hne]), hmode]
    simp only
    rw [hempty, ha]
    rfl

unseal Rat.add Rat.mul Rat.sub Rat.inv in
/-- Witness for claim C6: one scene with date `[5]`, `x = 10`,
`xScale = 1`, so the target ordinal is 15, the scene is the "before"
neighbour and the synthesized date is `[6]`; and the empty list returns
the clock's date. -/
theorem claim_C6_witness :
    getDateFromX 10 [] (Canvas.mk []) ⟨LayoutMode.absolute, 1, 500, 400, 300, 50⟩
      (2020, 1, 2) = [2020, 1, 2]
    ∧ getDateFromX 10 [⟨"a", "a", "a", [5], none, "M"⟩] (Canvas.mk [])
      ⟨LayoutMode.absolute, 1, 500, 400, 300, 50⟩ (2020, 1, 2) = [6] := by
  have h := claim_C6 10 [⟨"a", "a", "a", [5], none, "M"⟩] (Canvas.mk [])
    ⟨LayoutMode.absolute, 1, 500, 400, 300, 50⟩ (2020, 1, 2) rfl
  refine ⟨h.1, ?_⟩
  have h2 := (h.2 (by decide)).1 ⟨"a", "a", "a", [5], none, "M"⟩ (by decide)
  rw [h2]
  decide

/-- Claim C10: in absolute mode `getDateFromX` never reads the live
canvas positions — two canvases with arbitrarily different node
positions give the identical date for the same query and scenes. -/
theorem claim_C10 (x : ℚ) (events : List StoryEvent) (cfg : LayoutConfig)
    (today : Int × Int × Int) (c1 c2 : Canvas)
    (hmode : cfg.layoutMode = LayoutMode.absolute) (hne : events ≠ []) :
    getDateFromX x events c1 cfg today = getDateFromX x events c2 cfg today := by
  rw [getDateFromX, getDateFromX, hmode]

unseal Rat.add Rat.mul Rat.sub Rat.inv in
/-- Witness for claim C10 at a concrete input: two canvases holding the
same node at different positions. -/
theorem claim_C10_witness :
    getDateFromX 3 [⟨"a", "a", "a", [7], none, "M"⟩]
      (Canvas.mk [("a", ⟨0, 0, "file", some "f"⟩)])
      ⟨LayoutMode.absolute, 1, 500, 400, 300, 50⟩ (2020, 1, 2)
    = getDateFromX 3 [⟨"a", "a", "a", [7], none, "M"⟩]
      (Canvas.mk [("a", ⟨999, 55, "file", some "f"⟩)])
      ⟨LayoutMode.absolute, 1, 500, 400, 300, 50⟩ (2020, 1, 2) :=
  claim_C10 3 [⟨"a", "a", "a", [7], none, "M"⟩]
    ⟨LayoutMode.absolute, 1, 500, 400, 300, 50⟩ (2020, 1, 2)
    (Canvas.mk [("a", ⟨0, 0, "file", some "f"⟩)])
    (Canvas.mk [("a", ⟨999, 55, "file", some "f"⟩)])
    rfl (by decide)

-- ═══════════ Arc order and arc-average lemmas (for the round trip) ═══════════

theorem arcOrder_foldl_nodup :
    ∀ (l : List StoryEvent) (acc : List String), acc.Nodup →
    (l.foldl (fun acc e => if e.arc ∈ acc then acc else acc ++ [e.arc]) acc).Nodup
  | [], acc, h => h
  | e :: rest, acc, h => by
    simp only [List.foldl_cons]
    by_cases hmem : e.arc ∈ acc
    · rw [if_pos hmem]
      exact arcOrder_foldl_nodup rest acc h
    · rw [if_neg hmem]
      exact arcOrder_foldl_nodup rest (acc ++ [e.arc])
        (by simp [List.nodup_append, h, hmem])


theorem arcOrder_foldl_mem :
    ∀ (l : List StoryEvent) (acc : List String) (a : String),
    a ∈ l.foldl (fun acc e => if e.arc ∈ acc then acc else acc ++ [e.arc]) acc ↔
      a ∈ acc ∨ ∃ e ∈ l, e.arc = a
  | [], acc, a => by simp
  | e :: rest, acc, a => by
    simp only [List.foldl_cons]
    by_cases hmem : e.arc ∈ acc
    · rw [if_pos hmem, arcOrder_foldl_mem rest acc a]
      constructor
      · rintro (h | ⟨f, hf, hfa⟩)
        · exact Or.inl h
        · exact Or.inr ⟨f, List.mem_cons_of_mem e hf, hfa⟩
      · rintro (h | ⟨f, hf, hfa⟩)
        · exact Or.inl h
        · rcases List.mem_cons.mp hf with rfl | hf'
          · exact Or.inl (hfa ▸ hmem)
          · exact Or.inr ⟨f, hf', hfa⟩
    · rw [if_neg hmem, arcOrder_foldl_mem rest (acc ++ [e.arc]) a]
      constructor
      · rintro (h | ⟨f, hf, hfa⟩)
        · rcases List.mem_append.mp h with h' | h'
          · exact Or.inl h'
          · exact Or.inr ⟨e, List.mem_cons_self e rest, (List.mem_singleton.mp h').symm⟩
        · exact Or.inr ⟨f, List.mem_cons_of_mem e hf, hfa⟩
      · rintro (h | ⟨f, hf, hfa⟩)
        · exact Or.inl (List.mem_append.mpr (Or.inl h))
        · rcases List.mem_cons.mp hf with rfl | hf'
          · exact Or.inl (List.mem_append.mpr (Or.inr (List.mem_singleton.mpr hfa.symm)))
          · exact Or.inr ⟨f, hf', hfa⟩

theorem arcOrderOf_nodup (l : List StoryEvent) : (arcOrderOf l).Nodup :=
  arcOrder_foldl_nodup l [] List.nodup_nil

theorem mem_arcOrderOf {l : List StoryEvent} {a : String} :
    a ∈ arcOrderOf l ↔ ∃ e ∈ l, e.arc = a := by
  rw [arcOrderOf, arcOrder_foldl_mem]
  simp

/-- In a duplicate-free list, `indexOf` of the element at index `i` is `i`. -/
theorem jsIndexOfStr_get : ∀ {l : List String}, l.Nodup →
    ∀ {i : Nat} {a : String}, l.get? i = some a → jsIndexOfStr l a = (i : Int)
  | [], _, i, a, h => by simp at h
  | x :: xs, hnd, 0, a, h => by
    simp only [List.get?_cons_zero] at h
    injection h with h
    subst h
    simp [jsIndexOfStr, idxOf?]
  | x :: xs, hnd, i + 1, a, h => by
    simp only [List.get?_cons_succ] at h
    have hmem : a ∈ xs := List.get?_mem h
    have hne : x ≠ a := by
      intro hc
      subst hc
      exact (List.nodup_cons.mp hnd).1 hmem
    have ih := jsIndexOfStr_get (List.nodup_cons.mp hnd).2 h
    obtain ⟨j, hidx⟩ := idxOf?_isSome_of_mem hmem
    have ihj : (j : Int) = (i : Int) := by
      rw [jsIndexOfStr, hidx] at ih
      exact ih
    have hcons : idxOf? a (x :: xs) = some (j + 1) := by
      rw [idxOf?, if_neg hne, hidx, Option.map_some']
    rw [jsIndexOfStr, hcons]
    show ((j + 1 : Nat) : Int) = ((i + 1 : Nat) : Int)
    omega

/-- The average of a nonempty constant list is that constant. -/
theorem sum_const_of_all_eq : ∀ (l : List ℚ) (v : ℚ), (∀ y ∈ l, y = v) →
    l.sum = (l.length : ℚ) * v
  | [], v, _ => by simp
  | x :: xs, v, hall => by
    simp only [List.sum_cons, List.length_cons]
    rw [hall x (List.mem_cons_self x xs),
      sum_const_of_all_eq xs v (fun y hy => hall y (List.mem_cons_of_mem x hy))]
    push_cast
    ring

theorem avg_const {l : List ℚ} {v : ℚ} (hall : ∀ y ∈ l, y = v) (hne : l ≠ []) :
    l.sum / (l.length : ℚ) = v := by
  rw [sum_const_of_all_eq l v hall]
  have hlen : (l.length : ℚ) ≠ 0 := by
    simp only [ne_eq, Nat.cast_eq_zero, List.length_eq_zero]
    exact hne
  field_simp

theorem arcAvgY_foldl_invariant (events : List StoryEvent) (canvas : Canvas)
    (P : String × ℚ → Prop)
    (hstep : ∀ e ∈ events,
      P (e.arc,
        let yVals := (events.filter (fun f => f.arc == e.arc)).map
          (fun f => ((canvasLookup canvas f.nodeId).map (fun nd => nd.y)).getD 0)
        if yVals.length > 0 then yVals.sum / (yVals.length : ℚ) else 0)) :
    ∀ (l : List StoryEvent) (acc : List (String × ℚ)), (∀ e ∈ l, e ∈ events) →
    (∀ p ∈ acc, P p) →
    ∀ p ∈ l.foldl
      (fun acc e =>
        if acc.any (fun p => p.1 == e.arc) then acc
        else
          let arcEvents := events.filter (fun f => f.arc == e.arc)
          let yVals := arcEvents.map
            (fun f => ((canvasLookup canvas f.nodeId).map (fun nd => nd.y)).getD 0)
          let avgY := if yVals.length > 0 then yVals.sum / (yVals.length : ℚ) else 0
          acc ++ [(e.arc, avgY)]) acc, P p
  | [], acc, _, hacc, p, hp => hacc p hp
  | e :: rest, acc, hsub, hacc, p, hp => by
    simp only [List.foldl_cons] at hp
    by_cases hany : acc.any (fun p => p.1 == e.arc)
    · rw [if_pos hany] at hp
      exact arcAvgY_foldl_invariant events canvas P hstep rest acc
        (fun f hf => hsub f (List.mem_cons_of_mem e hf)) hacc p hp
    · rw [if_neg hany] at hp
      refine arcAvgY_foldl_invariant events canvas P hstep rest _
        (fun f hf => hsub f (List.mem_cons_of_mem e hf)) ?_ p hp
      intro q hq
      rcases List.mem_append.mp hq with hq' | hq'
      · exact hacc q hq'
      · rw [List.mem_singleton.mp hq']
        exact hstep e (hsub e (List.mem_cons_self e rest))

/-- Every entry of the per-arc average map satisfies the step property. -/
theorem arcAvgY_mem_prop (events : List StoryEvent) (canvas : Canvas)
    (P : String × ℚ → Prop)
    (hstep : ∀ e ∈ events,
      P (e.arc,
        let yVals := (events.filter (fun f => f.arc == e.arc)).map
          (fun f => ((canvasLookup canvas f.nodeId).map (fun nd => nd.y)).getD 0)
        if yVals.length > 0 then yVals.sum / (yVals.length : ℚ) else 0)) :
    ∀ p ∈ arcAvgY events canvas, P p :=
  arcAvgY_foldl_invariant events canvas P hstep events []
    (fun _ hf => hf) (fun _ hq => absurd hq (List.not_mem_nil _))

theorem arcAvgY_keys_nodup_aux (events : List StoryEvent) (canvas : Canvas) :
    ∀ (l : List StoryEvent) (acc : List (String × ℚ)), (acc.map Prod.fst).Nodup →
    ((l.foldl
      (fun acc e =>
        if acc.any (fun p => p.1 == e.arc) then acc
        else
          let arcEvents := events.filter (fun f => f.arc == e.arc)
          let yVals := arcEvents.map
            (fun f => ((canvasLookup canvas f.nodeId).map (fun nd => nd.y)).getD 0)
          let avgY := if yVals.length > 0 then yVals.sum / (yVals.length : ℚ) else 0
          acc ++ [(e.arc, avgY)]) acc).map Prod.fst).Nodup
  | [], acc, h => h
  | e :: rest, acc, h => by
    simp only [List.foldl_cons]
    by_cases hany : acc.any (fun p => p.1 == e.arc)
    · rw [if_pos hany]
      exact arcAvgY_keys_nodup_aux events canvas rest acc h
    · rw [if_neg hany]
      refine arcAvgY_keys_nodup_aux events canvas rest _ ?_
      rw [List.map_append]
      simp only [List.map_cons, List.map_nil]
      rw [List.nodup_append]
      refine ⟨h, List.nodup_singleton _, ?_⟩
      intro a ha hb
      simp only [List.mem_singleton] at hb
      subst hb
      obtain ⟨q, hq, hqa⟩ := List.mem_map.mp ha
      have hq' : (acc.any fun p => p.1 == e.arc) = true :=
        List.any_eq_true.mpr ⟨q, hq, beq_iff_eq.mpr hqa⟩
      exact hany hq'

theorem arcAvgY_keys_nodup (events : List StoryEvent) (canvas : Canvas) :
    ((arcAvgY events canvas).map Prod.fst).Nodup :=
  arcAvgY_keys_nodup_aux events canvas events [] List.nodup_nil

theorem arcAvgY_keys_mem_aux (events : List StoryEvent) (canvas : Canvas) :
    ∀ (l : List StoryEvent) (acc : List (String × ℚ)) (a : String),
    (a ∈ (l.foldl
      (fun acc e =>
        if acc.any (fun p => p.1 == e.arc) then acc
        else
          let arcEvents := events.filter (fun f => f.arc == e.arc)
          let yVals := arcEvents.map
            (fun f => ((canvasLookup canvas f.nodeId).map (fun nd => nd.y)).getD 0)
          let avgY := if yVals.length > 0 then yVals.sum / (yVals.length : ℚ) else 0
          acc ++ [(e.arc, avgY)]) acc).map Prod.fst) ↔
      a ∈ acc.map Prod.fst ∨ ∃ e ∈ l, e.arc = a
  | [], acc, a => by simp
  | e :: rest, acc, a => by
    simp only [List.foldl_cons]
    by_cases hany : acc.any (fun p => p.1 == e.arc)
    · rw [if_pos hany, arcAvgY_keys_mem_aux events canvas rest acc a]
      constructor
      · rintro (h | ⟨f, hf, hfa⟩)
        · exact Or.inl h
        · exact Or.inr ⟨f, List.mem_cons_of_mem e hf, hfa⟩
      · rintro (h | ⟨f, hf, hfa⟩)
        · exact Or.inl h
        · rcases List.mem_cons.mp hf with rfl | hf'
          · obtain ⟨q, hq, hqa⟩ := List.any_eq_true.mp hany
            left
            subst hfa
            exact List.mem_map.mpr ⟨q, hq, beq_iff_eq.mp hqa⟩
          · exact Or.inr ⟨f, hf', hfa⟩
    · rw [if_neg hany, arcAvgY_keys_mem_aux events canvas rest _ a]
      simp only [List.map_append, List.mem_append, List.map_cons, List.map_nil,
        List.mem_singleton]
      constructor
      · rintro ((h | h) | ⟨f, hf, hfa⟩)
        · exact Or.inl h
        · exact Or.inr ⟨e, List.mem_cons_self e rest, h.symm⟩
        · exact Or.inr ⟨f, List.mem_cons_of_mem e hf, hfa⟩
      · rintro (h | ⟨f, hf, hfa⟩)
        · exact Or.inl (Or.inl h)
        · rcases List.mem_cons.mp hf with rfl | hf'
          · exact Or.inl (Or.inr hfa.symm)
          · exact Or.inr ⟨f, hf', hfa⟩

theorem arcAvgY_keys_mem (events : List StoryEvent) (canvas : Canvas) (a : String) :
    a ∈ (arcAvgY events canvas).map Prod.fst ↔ ∃ e ∈ events, e.arc = a := by
  rw [arcAvgY, arcAvgY_keys_mem_aux]
  simp

/-- Two key-value lists with the same duplicate-free key sets and
key-determined values are permutations of each other. -/
theorem assoc_perm_of_keys {α : Type} {l₁ l₂ : List (String × α)}
    (h1 : (l₁.map Prod.fst).Nodup) (h2 : (l₂.map Prod.fst).Nodup)
    (hkeys : ∀ a, a ∈ l₁.map Prod.fst ↔ a ∈ l₂.map Prod.fst)
    (hval : ∀ p ∈ l₁, ∀ q ∈ l₂, p.1 = q.1 → p.2 = q.2) :
    List.Perm l₁ l₂ := by
  rw [List.perm_ext_iff_of_nodup (h1.of_map) (h2.of_map)]
  intro p
  constructor
  · intro hp
    have hk : p.1 ∈ l₂.map Prod.fst := (hkeys p.1).mp (List.mem_map_of_mem Prod.fst hp)
    obtain ⟨q, hq, hqk⟩ := List.mem_map.mp hk
    have hv : p.2 = q.2 := hval p hp q hq hqk.symm
    have : p = q := Prod.ext hqk.symm hv
    exact this ▸ hq
  · intro hp
    have hk : p.1 ∈ l₁.map Prod.fst := (hkeys p.1).mpr (List.mem_map_of_mem Prod.fst hp)
    obtain ⟨q, hq, hqk⟩ := List.mem_map.mp hk
    have hv : q.2 = p.2 := hval q hq p hp hqk
    have : p = q := Prod.ext hqk.symm hv.symm
    exact this ▸ hq

instance : IsTotal (String × ℚ) arcValLe := ⟨fun p q => le_total p.2 q.2⟩

instance : IsTrans (String × ℚ) arcValLe := ⟨fun _ _ _ => le_trans⟩

/-- A stable sort of any permutation of a strictly value-increasing pair
list recovers that list. -/
theorem insertionSort_arcVal_eq {l target : List (String × ℚ)}
    (hperm : List.Perm l target)
    (htarget : List.Pairwise (fun p q : String × ℚ => p.2 < q.2) target) :
    List.insertionSort arcValLe l = target := by
  have hp : List.Perm (List.insertionSort arcValLe l) target :=
    (List.perm_insertionSort arcValLe l).trans hperm
  have hle : List.Pairwise arcValLe (List.insertionSort arcValLe l) :=
    List.sorted_insertionSort arcValLe l
  have hne : List.Pairwise (fun p q : String × ℚ => p.2 ≠ q.2)
      (List.insertionSort arcValLe l) := by
    refine (List.Perm.pairwise_iff ?_ hp.symm).mp ?_
    · intro p q h
      exact h.symm
    · exact htarget.imp (fun h => ne_of_lt h)
  have hstrict : List.Pairwise (fun p q : String × ℚ => p.2 < q.2)
      (List.insertionSort arcValLe l) := by
    have := hle.and hne
    exact this.imp (fun h => lt_of_le_of_ne h.1 h.2)
  haveI : IsAntisymm (String × ℚ) (fun p q : String × ℚ => p.2 < q.2) :=
    ⟨fun p q h1 h2 => absurd h1 (asymm h2)⟩
  exact List.eq_of_perm_of_sorted hp hstrict htarget

/-- Every scene's computed layout position carries
`Y = laneIndex(arc) * arcSpacing`, lane indices taken in the date-sorted
first-appearance order. -/
theorem layoutLookup_y {scenes : List StoryEvent} (cfg : LayoutConfig)
    (hids : (scenes.map StoryEvent.nodeId).Nodup)
    {s : StoryEvent} (hs : s ∈ scenes) :
    ∃ xval : ℚ, layoutLookup (calculateLayout scenes cfg) s.nodeId =
      some ⟨xval, (jsIndexOfStr (arcOrderOf (sortByDate scenes)) s.arc : ℚ)
        * cfg.arcSpacing⟩ := by
  have hne : scenes ≠ [] := by
    intro hc
    subst hc
    cases hs
  rw [calculateLayout_eq_emit cfg hne]
  have hkeys := layout_keys_nodup cfg hids
  rw [mapSetFold_eq_self hkeys]
  have hs' : s ∈ sortByDate scenes :=
    (List.perm_insertionSort dateLe scenes).mem_iff.mpr hs
  obtain ⟨j, hj⟩ := List.mem_iff_get?.mp hs'
  have hpair : ((sortByDate scenes).map (fun e => (e, dateToOrdinal e.date))).get? j
      = some (s, dateToOrdinal s.date) := by
    rw [List.get?_map, hj]
    rfl
  obtain ⟨x, he⟩ := layoutEmit_get?_shape cfg (arcOrderOf (sortByDate scenes))
    (listMinInt ((sortByDate scenes).map (fun e => dateToOrdinal e.date)))
    _ 0 [] j s _ hpair
  exact ⟨x, assocFind_of_get? hkeys he⟩

theorem floor_half_shift {S : ℚ} (hS : S ≠ 0) (k : Nat) :
    ⌊((k : ℚ) * S + S / 2) / S⌋ = (k : Int) := by
  have : ((k : ℚ) * S + S / 2) / S = (k : ℚ) + 1 / 2 := by
    field_simp
    ring
  rw [this, Int.floor_eq_iff]
  constructor
  · push_cast
    linarith
  · push_cast
    linarith

/-- Claim C9: round trip of forward and inverse lane mapping. With live
Y coordinates equal to the computed layout (no manual dragging) and a
positive `arcSpacing` (the documented config invariant), `getArcFromY`
at lane `k`'s canonical Y (`k * arcSpacing`) returns the arc that
`calculateLayout` assigned to lane `k`, for every lane index `k`. -/
theorem claim_C9 (scenes : List StoryEvent) (canvas : Canvas) (cfg : LayoutConfig)
    (hne : scenes ≠ [])
    (hS : 0 < cfg.arcSpacing)
    (hids : (scenes.map StoryEvent.nodeId).Nodup)
    (hlive : ∀ s ∈ scenes,
      (canvasLookup canvas s.nodeId).map (fun nd => nd.y)
        = (layoutLookup (calculateLayout scenes cfg) s.nodeId).map (fun p => p.y))
    (k : Nat) (hk : k < (arcOrderOf (sortByDate scenes)).length) :
    getArcFromY ((k : ℚ) * cfg.arcSpacing) scenes canvas cfg
      = (arcOrderOf (sortByDate scenes)).getD k "" := by
  have hY : ∀ s ∈ scenes, ((canvasLookup canvas s.nodeId).map (fun nd => nd.y)).getD 0
      = (jsIndexOfStr (arcOrderOf (sortByDate scenes)) s.arc : ℚ) * cfg.arcSpacing := by
    intro s hs
    obtain ⟨x, hx⟩ := layoutLookup_y cfg hids hs
    have hmap := hlive s hs
    rw [hx] at hmap
    simp only [Option.map_some'] at hmap
    rw [hmap]
    rfl
  have hent : ∀ p ∈ arcAvgY scenes canvas,
      p.2 = (jsIndexOfStr (arcOrderOf (sortByDate scenes)) p.1 : ℚ) * cfg.arcSpacing := by
    refine arcAvgY_mem_prop scenes canvas
      (fun p => p.2 =
        (jsIndexOfStr (arcOrderOf (sortByDate scenes)) p.1 : ℚ) * cfg.arcSpacing) ?_
    intro e he
    simp only
    have hallv : ∀ y ∈ (scenes.filter (fun f => f.arc == e.arc)).map
        (fun f => ((canvasLookup canvas f.nodeId).map (fun nd => nd.y)).getD 0),
        y = (jsIndexOfStr (arcOrderOf (sortByDate scenes)) e.arc : ℚ) * cfg.arcSpacing := by
      intro y hy
      obtain ⟨f, hf, hfy⟩ := List.mem_map.mp hy
      have hf' := List.mem_filter.mp hf
      have harc : f.arc = e.arc := beq_iff_eq.mp hf'.2
      rw [← hfy, hY f hf'.1, harc]
    have hmem : e ∈ scenes.filter (fun f => f.arc == e.arc) :=
      List.mem_filter.mpr ⟨he, beq_self_eq_true e.arc⟩
    have hne' : (scenes.filter (fun f => f.arc == e.arc)).map
        (fun f => ((canvasLookup canvas f.nodeId).map (fun nd => nd.y)).getD 0) ≠ [] := by
      simp only [ne_eq, List.map_eq_nil, List.filter_eq_nil]
      push_neg
      exact ⟨e, he, by simp⟩
    rw [if_pos (by simpa [List.length_pos] using hne')]
    exact avg_const hallv hne'
  have hperm : List.Perm (arcAvgY scenes canvas)
      ((arcOrderOf (sortByDate scenes)).map
        (fun a => (a, (jsIndexOfStr (arcOrderOf (sortByDate scenes)) a : ℚ)
          * cfg.arcSpacing))) := by
    refine assoc_perm_of_keys (arcAvgY_keys_nodup scenes canvas) ?_ ?_ ?_
    · rw [List.map_map]
      have : (Prod.fst ∘ fun a => (a,
          (jsIndexOfStr (arcOrderOf (sortByDate scenes)) a : ℚ) * cfg.arcSpacing))
          = fun a => a := rfl
      rw [this, List.map_id']
      exact arcOrderOf_nodup _
    · intro a
      rw [arcAvgY_keys_mem, List.map_map]
      have : (Prod.fst ∘ fun a => (a,
          (jsIndexOfStr (arcOrderOf (sortByDate scenes)) a : ℚ) * cfg.arcSpacing))
          = fun a => a := rfl
      rw [this, List.map_id']
      rw [mem_arcOrderOf]
      constructor
      · rintro ⟨e, he, hea⟩
        exact ⟨e, (List.perm_insertionSort dateLe scenes).mem_iff.mpr he, hea⟩
      · rintro ⟨e, he, hea⟩
        exact ⟨e, (List.perm_insertionSort dateLe scenes).mem_iff.mp he, hea⟩
    · intro p hp q hq hpq
      obtain ⟨a, _, haq⟩ := List.mem_map.mp hq
      subst haq
      have hpa : p.1 = a := hpq
      rw [hent p hp, hpa]
  have hstrict : List.Pairwise (fun p q : String × ℚ => p.2 < q.2)
      ((arcOrderOf (sortByDate scenes)).map
        (fun a => (a, (jsIndexOfStr (arcOrderOf (sortByDate scenes)) a : ℚ)
          * cfg.arcSpacing))) := by
    rw [List.pairwise_map, List.pairwise_iff_get]
    intro i j hij
    have hgi : (arcOrderOf (sortByDate scenes)).get? i
        = some ((arcOrderOf (sortByDate scenes)).get i) := List.get?_eq_get i.isLt
    have hgj : (arcOrderOf (sortByDate scenes)).get? j
        = some ((arcOrderOf (sortByDate scenes)).get j) := List.get?_eq_get j.isLt
    have hi := jsIndexOfStr_get (arcOrderOf_nodup (sortByDate scenes)) hgi
    have hj := jsIndexOfStr_get (arcOrderOf_nodup (sortByDate scenes)) hgj
    simp only
    rw [hi, hj]
    have hij' : ((i : Nat) : ℚ) < ((j : Nat) : ℚ) := by exact_mod_cast hij
    push_cast
    exact mul_lt_mul_of_pos_right hij' hS
  rw [getArcFromY, if_neg (by simp [List.isEmpty_iff, hne])]
  simp only
  rw [insertionSort_arcVal_eq hperm hstrict]
  rw [floor_half_shift (ne_of_gt hS) k]
  rw [if_neg (by omega : ¬ ((k : Int) < 0))]
  have hlen : ((arcOrderOf (sortByDate scenes)).map
      (fun a => (a, (jsIndexOfStr (arcOrderOf (sortByDate scenes)) a : ℚ)
        * cfg.arcSpacing))).length = (arcOrderOf (sortByDate scenes)).length := by
    rw [List.length_map]
  rw [if_neg (by rw [hlen]; omega)]
  rw [Int.toNat_natCast]
  have hk' : k < ((arcOrderOf (sortByDate scenes)).map
      (fun a => (a, (jsIndexOfStr (arcOrderOf (sortByDate scenes)) a : ℚ)
        * cfg.arcSpacing))).length := by rw [hlen]; exact hk
  rw [List.getD_eq_getElem _ _ hk', List.getD_eq_getElem _ _ hk]
  simp

unseal Rat.add Rat.mul Rat.sub Rat.inv in
/-- Witness for claim C9: two scenes on two lanes, live positions equal
to the computed layout; lane 1's canonical Y maps back to its arc. -/
theorem claim_C9_witness :
    getArcFromY (((1 : Nat) : ℚ) * (500 : ℚ))
      [⟨"a", "a", "a", [2024, 1, 1], none, "Main"⟩,
       ⟨"c", "c", "c", [2024, 3, 1], none, "Side"⟩]
      (Canvas.mk [("a", ⟨0, 0, "file", some "f"⟩), ("c", ⟨60, 500, "file", some "g"⟩)])
      ⟨LayoutMode.absolute, 1, 500, 400, 300, 50⟩ = "Side" := by
  have h := claim_C9
    [⟨"a", "a", "a", [2024, 1, 1], none, "Main"⟩,
     ⟨"c", "c", "c", [2024, 3, 1], none, "Side"⟩]
    (Canvas.mk [("a", ⟨0, 0, "file", some "f"⟩), ("c", ⟨60, 500, "file", some "g"⟩)])
    ⟨LayoutMode.absolute, 1, 500, 400, 300, 50⟩
    (by decide) (by decide) (by decide) (by decide) 1 (by decide)
  rw [h]
  decide

-- ═══════════ Sync engine (syncEngine.ts 15-133) ═══════════

/-- A JS number that may be `NaN` (`none`): in `calculateSyncChanges` the
only reachable NaN source is indexing a neighbour's date array past its
end, so only the synthesized segments carry this type. -/
abbrev JSInt := Option Int

/-- JS `+` with NaN propagation. -/
def jsAdd (a b : JSInt) : JSInt :=
  match a, b with
  | some x, some y => some (x + y)
  | _, _ => none

/-- JS `Math.floor(v / 2)` with NaN propagation (`Int.fdiv` is floor
division, as `Math.floor` of the real quotient). -/
def jsFloorHalf (a : JSInt) : JSInt := a.map (fun v => Int.fdiv v 2)

/-- JS `<=` (false whenever either side is NaN). -/
def jsLe (a b : JSInt) : Bool :=
  match a, b with
  | some x, some y => decide (x ≤ y)
  | _, _ => false

/-- One proposed change of `calculateSyncChanges` (the human-readable
`description` string is presentation only and not modelled). -/
structure SyncChange where
  scene : StoryEvent
  newArc : Option String
  newDate : Option (List JSInt)
deriving DecidableEq

/-- Push a member y into the per-arc `arcY` map (`Map` first-seen key
order, append to the existing list otherwise). -/
def pushArcY (acc : List (String × List ℚ)) (arc : String) (y : ℚ) :
    List (String × List ℚ) :=
  if acc.any (fun p => p.1 == arc) then
    acc.map (fun p => if p.1 == arc then (p.1, p.2 ++ [y]) else p)
  else acc ++ [(arc, [y])]

/-- The `arcY` map of `calculateSyncChanges`: live y values per stored
arc, scenes without a canvas node skipped. -/
def arcYLists (canvas : Canvas) (scenes : List StoryEvent) :
    List (String × List ℚ) :=
  scenes.foldl
    (fun acc s =>
      match canvasLookup canvas s.nodeId with
      | none => acc
      | some nd => pushArcY acc s.arc nd.y)
    []

/-- The `arcCentroids` map: average the collected y lists. -/
def arcCentroids (canvas : Canvas) (scenes : List StoryEvent) :
    List (String × ℚ) :=
  (arcYLists canvas scenes).map (fun p => (p.1, p.2.sum / (p.2.length : ℚ)))

/-- One step of the closest-centroid scan: take this centroid exactly
when its distance beats the running minimum (`none` = `Infinity`). -/
def closestStep (y : ℚ) (acc : String × Option ℚ) (p : String × ℚ) :
    String × Option ℚ :=
  let dist := |y - p.2|
  match acc.2 with
  | none => (p.1, some dist)
  | some m => if dist < m then (p.1, some dist) else acc

/-- The closest-centroid scan: `minDistance` starts at `Infinity`
(`none`), `closestArc` at the scene's stored arc, and each strictly
closer centroid takes over. -/
def closestArcFold (centroids : List (String × ℚ)) (y : ℚ) (initArc : String) :
    String × Option ℚ :=
  centroids.foldl (closestStep y) (initArc, none)

/-- Sorting key for the visual sequence: ascending live x. -/
def nodeXLe (p q : String × CanvasNodeData) : Prop := p.2.x ≤ q.2.x

instance : DecidableRel nodeXLe := fun p q => inferInstanceAs (Decidable (_ ≤ _))

instance : IsTotal (String × CanvasNodeData) nodeXLe := ⟨fun p q => le_total p.2.x q.2.x⟩

instance : IsTrans (String × CanvasNodeData) nodeXLe := ⟨fun _ _ _ => le_trans⟩

/-- The file nodes of the canvas (`data.type === 'file' && data.file`). -/
def fileNodes (canvas : Canvas) : List (String × CanvasNodeData) :=
  canvas.nodes.filter (fun p => p.2.ntype == "file" && optTruthy p.2.file)

/-- All canvas file nodes sorted by live x — the purely visual
left-to-right sequence of node ids. -/
def visualSequence (canvas : Canvas) : List String :=
  (List.insertionSort nodeXLe (fileNodes canvas)).map Prod.fst

/-- JS array indexing at a possibly negative index. -/
def seqGet (l : List String) (i : Int) : Option String :=
  if i < 0 then none else l.get? i.toNat

/-- Synthesize the proposed date for a violated scene: copy the scene's
date and overwrite the least-significant slot from the neighbours. -/
def synthDate (sceneDate : AbstractDate) (prevS nextS : Option StoryEvent) :
    List JSInt :=
  let newD : List JSInt := sceneDate.map some
  let lastIdx := sceneDate.length - 1
  match prevS, nextS with
  | some p, some n =>
      let mid := jsFloorHalf (jsAdd (p.date.get? lastIdx) (n.date.get? lastIdx))
      let v := if jsLe mid (p.date.get? lastIdx)
               then jsAdd (p.date.get? lastIdx) (some 1) else mid
      newD.set lastIdx v
  | some p, none => newD.set lastIdx (jsAdd (p.date.get? lastIdx) (some 1))
  | none, some n => newD.set lastIdx (jsAdd (n.date.get? lastIdx) (some (-1)))
  | none, none => newD

/-- The arc-change test of the per-scene loop: the closest centroid is a
different arc and its distance is under half the arc spacing. -/
def arcChangeOf (canvas : Canvas) (scenes : List StoryEvent)
    (cfg : LayoutConfig) (s : StoryEvent) (nd : CanvasNodeData) : Bool :=
  let fold := closestArcFold (arcCentroids canvas scenes) nd.y s.arc
  (fold.1 != s.arc) &&
    (match fold.2 with
      | none => false
      | some m => decide (m < cfg.arcSpacing / 2))

/-- The scene immediately left of `s` in the visual sequence, resolved
back to a story event. -/
def prevSceneOf (canvas : Canvas) (scenes : List StoryEvent)
    (s : StoryEvent) : Option StoryEvent :=
  let vseq := visualSequence canvas
  (seqGet vseq (jsIndexOfStr vseq s.nodeId - 1)).bind
    (fun i => scenes.find? (fun t => t.nodeId == i))

/-- The scene immediately right of `s` in the visual sequence, resolved
back to a story event. -/
def nextSceneOf (canvas : Canvas) (scenes : List StoryEvent)
    (s : StoryEvent) : Option StoryEvent :=
  let vseq := visualSequence canvas
  (seqGet vseq (jsIndexOfStr vseq s.nodeId + 1)).bind
    (fun i => scenes.find? (fun t => t.nodeId == i))

/-- The date-violation test: the stored date does not lie strictly
between the visual neighbours' stored dates. -/
def needsNewDateOf (canvas : Canvas) (scenes : List StoryEvent)
    (s : StoryEvent) : Bool :=
  (match prevSceneOf canvas scenes s with
    | some p => decide (compareAbstractDates s.date p.date ≤ 0)
    | none => false)
  || (match nextSceneOf canvas scenes s with
    | some n => decide (0 ≤ compareAbstractDates s.date n.date)
    | none => false)

/-- The body of the per-scene loop of `calculateSyncChanges` (emits the
change proposal for one scene, if any). -/
def sceneSyncChange (canvas : Canvas) (scenes : List StoryEvent)
    (cfg : LayoutConfig) (s : StoryEvent) : Option SyncChange :=
  match canvasLookup canvas s.nodeId with
  | none => none
  | some nd =>
    let arcChange := arcChangeOf canvas scenes cfg s nd
    let newArc : Option String := if arcChange
      then some (closestArcFold (arcCentroids canvas scenes) nd.y s.arc).1 else none
    let needsNewDate := needsNewDateOf canvas scenes s
    let newDate : Option (List JSInt) :=
      if needsNewDate
      then some (synthDate s.date (prevSceneOf canvas scenes s)
        (nextSceneOf canvas scenes s))
      else none
    if arcChange || needsNewDate then some ⟨s, newArc, newDate⟩ else none

/-- `calculateSyncChanges` from syncEngine.ts (pure core: the `app` and
date-format arguments only feed the human-readable description, which is
not modelled). -/
def calculateSyncChanges (canvas : Canvas) (scenes : List StoryEvent)
    (cfg : LayoutConfig) : List SyncChange :=
  scenes.filterMap (sceneSyncChange canvas scenes cfg)

-- ═══════════════════ Claim C4 ═══════════════════

unseal Rat.add Rat.mul Rat.sub Rat.inv in
/-- Claim C4 counterexample: on the spec's reconciliation example the
proposal for R is not `[2024,1,12]` — only the least-significant segment
is rewritten, all other segments (including the month, `2`) are copied
from R's own stored date `[2024,2,1]`. -/
theorem claim_C4_cx :
    ((calculateSyncChanges
      (Canvas.mk [("p", ⟨0, 0, "file", some "f"⟩), ("r", ⟨100, 0, "file", some "g"⟩),
        ("q", ⟨200, 0, "file", some "h"⟩)])
      [⟨"p", "P", "P", [2024, 1, 10], none, "Main"⟩,
       ⟨"r", "R", "R", [2024, 2, 1], none, "Main"⟩,
       ⟨"q", "Q", "Q", [2024, 1, 15], none, "Main"⟩]
      ⟨LayoutMode.absolute, 10, 500, 400, 300, 50⟩).find?
        (fun c => c.scene.nodeId == "r")).bind (fun c => c.newDate)
      ≠ some [some 2024, some 1, some 12] := by
  decide

unseal Rat.add Rat.mul Rat.sub Rat.inv in
/-- Claim C4 (amended): on the reconciliation example,
`calculateSyncChanges` flags R (stored date `[2024,2,1]`, dragged
between P `[2024,1,10]` and Q `[2024,1,15]` in arc "Main") and proposes
`[2024,2,12]` — day segment `floor((10+15)/2) = 12`, every other segment
copied from R's current date. -/
theorem claim_C4 :
    ((calculateSyncChanges
      (Canvas.mk [("p", ⟨0, 0, "file", some "f"⟩), ("r", ⟨100, 0, "file", some "g"⟩),
        ("q", ⟨200, 0, "file", some "h"⟩)])
      [⟨"p", "P", "P", [2024, 1, 10], none, "Main"⟩,
       ⟨"r", "R", "R", [2024, 2, 1], none, "Main"⟩,
       ⟨"q", "Q", "Q", [2024, 1, 15], none, "Main"⟩]
      ⟨LayoutMode.absolute, 10, 500, 400, 300, 50⟩).find?
        (fun c => c.scene.nodeId == "r")).bind (fun c => c.newDate)
      = some [some 2024, some 2, some 12] := by
  decide

-- ═══════════ Helper lemmas for the sync-engine claims ═══════════

/-- With duplicate-free ids, looking a member scene up by its id finds
exactly that scene. -/
theorem find?_nodeId_self : ∀ {scenes : List StoryEvent},
    (scenes.map StoryEvent.nodeId).Nodup → ∀ {s : StoryEvent}, s ∈ scenes →
    scenes.find? (fun t => t.nodeId == s.nodeId) = some s
  | [], _, s, hs => absurd hs (List.not_mem_nil s)
  | t :: rest, hnd, s, hs => by
    rcases List.mem_cons.mp hs with rfl | hs'
    · rw [List.find?_cons_of_pos _ (by simp)]
    · have hne : t.nodeId ≠ s.nodeId := by
        intro hc
        simp only [List.map_cons, List.nodup_cons] at hnd
        exact hnd.1 (hc ▸ List.mem_map_of_mem StoryEvent.nodeId hs')
      rw [List.find?_cons_of_neg _ (by simpa using hne)]
      exact find?_nodeId_self (by simpa using (List.map_cons StoryEvent.nodeId t rest ▸ hnd).of_cons) hs'

/-- A successful canvas lookup comes from a member entry. -/
theorem canvasLookup_mem {canvas : Canvas} {id : String} {nd : CanvasNodeData}
    (h : canvasLookup canvas id = some nd) : (id, nd) ∈ canvas.nodes := by
  rw [canvasLookup] at h
  match hfind : canvas.nodes.find? (fun p => p.1 == id) with
  | none => rw [hfind] at h; simp at h
  | some p =>
    rw [hfind] at h
    simp only [Option.map_some'] at h
    injection h with h
    have hp := List.mem_of_find?_eq_some hfind
    have hkey := List.find?_some hfind
    simp only [beq_iff_eq] at hkey
    have : p = (id, nd) := by
      rw [Prod.ext_iff]
      exact ⟨hkey, h⟩
    exact this ▸ hp

/-- `filterMap` by an everywhere-defined partial function preserves
positions. -/
theorem filterMap_allSome_get? {α β : Type} (f : α → Option β) :
    ∀ {l : List α}, (∀ i ∈ l, (f i).isSome) →
    ∀ {j : Nat} {i : α}, l.get? j = some i → (l.filterMap f).get? j = f i
  | [], _, j, i, h => by simp at h
  | x :: xs, hall, 0, i, h => by
    simp only [List.get?_cons_zero] at h
    injection h with h
    subst h
    obtain ⟨b, hb⟩ := Option.isSome_iff_exists.mp (hall x (List.mem_cons_self x xs))
    rw [List.filterMap_cons_some hb, List.get?_cons_zero, hb]
  | x :: xs, hall, j + 1, i, h => by
    simp only [List.get?_cons_succ] at h
    obtain ⟨b, hb⟩ := Option.isSome_iff_exists.mp (hall x (List.mem_cons_self x xs))
    rw [List.filterMap_cons_some hb]
    rw [List.get?_cons_succ]
    exact filterMap_allSome_get? f (fun i hi => hall i (List.mem_cons_of_mem x hi)) h

/-- Half of a number never exceeds its absolute value. -/
theorem half_le_abs (S : ℚ) : S / 2 ≤ |S| := by
  rcases le_or_lt 0 S with h | h
  · rw [abs_of_nonneg h]
    linarith
  · rw [abs_of_neg h]
    linarith

/-- One fold step either keeps the accumulator or takes the entry with
that entry's own distance. -/
theorem closestStep_cases (y : ℚ) (acc : String × Option ℚ) (p : String × ℚ) :
    closestStep y acc p = (p.1, some |y - p.2|) ∨ closestStep y acc p = acc := by
  rw [closestStep]
  match hm : acc.2 with
  | none => exact Or.inl rfl
  | some m =>
    dsimp only
    by_cases hlt : |y - p.2| < m
    · rw [if_pos hlt]
      exact Or.inl rfl
    · rw [if_neg hlt]
      exact Or.inr rfl

/-- The closest-centroid scan either keeps its initial accumulator or
lands on one of the entries with that entry's own distance. -/
theorem closestFold_cases (y : ℚ) :
    ∀ (centroids : List (String × ℚ)) (acc : String × Option ℚ),
    centroids.foldl (closestStep y) acc = acc
    ∨ ∃ p ∈ centroids, centroids.foldl (closestStep y) acc = (p.1, some |y - p.2|)
  | [], acc => Or.inl rfl
  | p0 :: rest, acc => by
    simp only [List.foldl_cons]
    rcases closestFold_cases y rest (closestStep y acc p0) with h | ⟨q, hq, hf⟩
    · rw [h]
      rcases closestStep_cases y acc p0 with h' | h'
      · exact Or.inr ⟨p0, List.mem_cons_self p0 rest, h'⟩
      · exact Or.inl h'
    · exact Or.inr ⟨q, List.mem_cons_of_mem p0 hq, hf⟩

/-- `pushArcY` preserves the per-entry invariant: nonempty value list,
all members equal to the lane height of the key, key satisfies `A`. -/
theorem pushArcY_prop (laneY : String → ℚ) (A : String → Prop)
    {acc : List (String × List ℚ)} {arc : String} {y : ℚ}
    (hy : y = laneY arc) (hA : A arc)
    (hacc : ∀ p ∈ acc, p.2 ≠ [] ∧ (∀ z ∈ p.2, z = laneY p.1) ∧ A p.1) :
    ∀ p ∈ pushArcY acc arc y, p.2 ≠ [] ∧ (∀ z ∈ p.2, z = laneY p.1) ∧ A p.1 := by
  rw [pushArcY]
  by_cases hany : acc.any (fun p => p.1 == arc)
  · rw [if_pos hany]
    intro p hp
    obtain ⟨q, hq, hqp⟩ := List.mem_map.mp hp
    by_cases hqa : q.1 == arc
    · rw [if_pos hqa] at hqp
      have harc : q.1 = arc := beq_iff_eq.mp hqa
      obtain ⟨hne, hall, hAq⟩ := hacc q hq
      refine hqp ▸ ⟨by simp, ?_, hAq⟩
      intro z hz
      rcases List.mem_append.mp hz with hz' | hz'
      · exact hall z hz'
      · rw [List.mem_singleton.mp hz', hy, harc]
    · rw [if_neg hqa] at hqp
      exact hqp ▸ hacc q hq
  · rw [if_neg hany]
    intro p hp
    rcases List.mem_append.mp hp with hp' | hp'
    · exact hacc p hp'
    · rw [List.mem_singleton.mp hp']
      exact ⟨by simp, fun z hz => by rw [List.mem_singleton.mp hz, hy], hA⟩

/-- Fold invariant for the `arcY` map of `calculateSyncChanges`. -/
theorem arcYLists_fold_prop (canvas : Canvas) (laneY : String → ℚ) (A : String → Prop) :
    ∀ (l : List StoryEvent) (acc : List (String × List ℚ)),
    (∀ t ∈ l, ∀ nd, canvasLookup canvas t.nodeId = some nd →
      nd.y = laneY t.arc ∧ A t.arc) →
    (∀ p ∈ acc, p.2 ≠ [] ∧ (∀ z ∈ p.2, z = laneY p.1) ∧ A p.1) →
    ∀ p ∈ l.foldl
      (fun acc t =>
        match canvasLookup canvas t.nodeId with
        | none => acc
        | some nd => pushArcY acc t.arc nd.y) acc,
    p.2 ≠ [] ∧ (∀ z ∈ p.2, z = laneY p.1) ∧ A p.1
  | [], acc, _, hacc => hacc
  | t :: rest, acc, hl, hacc => by
    rw [List.foldl_cons]
    refine arcYLists_fold_prop canvas laneY A rest _
      (fun u hu => hl u (List.mem_cons_of_mem t hu)) ?_
    match hnd : canvasLookup canvas t.nodeId with
    | none => exact hacc
    | some nd =>
      obtain ⟨hy, hA⟩ := hl t (List.mem_cons_self t rest) nd hnd
      exact pushArcY_prop laneY A hy hA hacc

/-- Every arc centroid of `calculateSyncChanges` sits at the lane height
of its arc, and its arc satisfies `A`, provided every scene's live node
does. -/
theorem arcCentroids_prop (canvas : Canvas) (scenes : List StoryEvent)
    (laneY : String → ℚ) (A : String → Prop)
    (h : ∀ t ∈ scenes, ∀ nd, canvasLookup canvas t.nodeId = some nd →
      nd.y = laneY t.arc ∧ A t.arc) :
    ∀ p ∈ arcCentroids canvas scenes, p.2 = laneY p.1 ∧ A p.1 := by
  intro p hp
  obtain ⟨q, hq, hqp⟩ := List.mem_map.mp hp
  obtain ⟨hne, hall, hA⟩ := arcYLists_fold_prop canvas laneY A scenes [] h
    (fun p hp => absurd hp (List.not_mem_nil p)) q hq
  rw [← hqp]
  exact ⟨avg_const hall hne, hA⟩

theorem jsIndexOfStr_eq_of_idxOf? {l : List String} {s : String} {i : Nat}
    (h : idxOf? s l = some i) : jsIndexOfStr l s = (i : Int) := by
  rw [jsIndexOfStr, h]

/-- With unique node ids the visual sequence has no duplicates. -/
theorem visualSequence_nodup {canvas : Canvas}
    (hcnv : (canvas.nodes.map Prod.fst).Nodup) : (visualSequence canvas).Nodup := by
  rw [visualSequence]
  have hsub : List.Sublist (fileNodes canvas) canvas.nodes :=
    List.filter_sublist canvas.nodes
  have h1 : ((fileNodes canvas).map Prod.fst).Nodup := (hsub.map Prod.fst).nodup hcnv
  have hperm : List.Perm (List.insertionSort nodeXLe (fileNodes canvas))
      (fileNodes canvas) := List.perm_insertionSort nodeXLe (fileNodes canvas)
  exact (hperm.map Prod.fst).nodup_iff.mpr h1

/-- A truthy file node's id appears in the visual sequence. -/
theorem mem_visualSequence_of_node {canvas : Canvas} {id : String}
    {nd : CanvasNodeData} (h : canvasLookup canvas id = some nd)
    (ht : nd.ntype = "file") (hf : optTruthy nd.file) :
    id ∈ visualSequence canvas := by
  rw [visualSequence]
  have hmem : (id, nd) ∈ fileNodes canvas :=
    List.mem_filter.mpr ⟨canvasLookup_mem h, by simp [ht, hf]⟩
  exact List.mem_map_of_mem Prod.fst
    ((List.perm_insertionSort nodeXLe (fileNodes canvas)).mem_iff.mpr hmem)

/-- Every id of the visual sequence belongs to a scene when the scene
list covers the file nodes. -/
theorem visualSequence_covered {canvas : Canvas} {scenes : List StoryEvent}
    (hcover : ∀ p ∈ fileNodes canvas, ∃ s ∈ scenes, s.nodeId = p.1) :
    ∀ i ∈ visualSequence canvas, ∃ s ∈ scenes, s.nodeId = i := by
  intro i hi
  rw [visualSequence] at hi
  obtain ⟨p, hp, hpi⟩ := List.mem_map.mp hi
  exact hpi ▸ hcover p
    ((List.perm_insertionSort nodeXLe (fileNodes canvas)).mem_iff.mp hp)

/-- When the live node sits at its lane height and every centroid does
too, the closest-centroid arc test never fires: a different arc's
centroid is at least a full `arcSpacing` away. -/
theorem arcChangeOf_false (canvas : Canvas) (scenes : List StoryEvent)
    (cfg : LayoutConfig) (s : StoryEvent) (nd : CanvasNodeData)
    (hS : 0 < cfg.arcSpacing)
    (hy : nd.y = (jsIndexOfStr (arcOrderOf (sortByDate scenes)) s.arc : ℚ)
      * cfg.arcSpacing)
    (hsarc : s.arc ∈ arcOrderOf (sortByDate scenes))
    (hcent : ∀ p ∈ arcCentroids canvas scenes,
      p.2 = (jsIndexOfStr (arcOrderOf (sortByDate scenes)) p.1 : ℚ)
        * cfg.arcSpacing
      ∧ p.1 ∈ arcOrderOf (sortByDate scenes)) :
    arcChangeOf canvas scenes cfg s nd = false := by
  rw [arcChangeOf, closestArcFold]
  rcases closestFold_cases nd.y (arcCentroids canvas scenes) (s.arc, none)
    with h | ⟨p, hp, h⟩
  · rw [h]
    simp
  · rw [h]
    dsimp only
    by_cases hpa : p.1 = s.arc
    · simp [hpa]
    · suffices hnlt : ¬ (|nd.y - p.2| < cfg.arcSpacing / 2) by simp [hnlt]
      obtain ⟨hp2, hpmem⟩ := hcent p hp
      rw [hy, hp2]
      obtain ⟨i, hi⟩ := idxOf?_isSome_of_mem hsarc
      obtain ⟨j, hj⟩ := idxOf?_isSome_of_mem hpmem
      rw [jsIndexOfStr_eq_of_idxOf? hi, jsIndexOfStr_eq_of_idxOf? hj]
      have hij : i ≠ j := by
        intro hc
        exact hpa (jsIndexOfStr_inj hpmem hsarc
          (by rw [jsIndexOfStr_eq_of_idxOf? hj, jsIndexOfStr_eq_of_idxOf? hi, hc]))
      have h1 : (1 : ℚ) ≤ |((i : Nat) : ℚ) - ((j : Nat) : ℚ)| := by
        have hne' : ((i : Int) - (j : Int)) ≠ 0 := by omega
        have h2 : (1 : Int) ≤ |(i : Int) - (j : Int)| := Int.one_le_abs hne'
        have h3 : ((|(i : Int) - (j : Int)| : Int) : ℚ)
            = |((i : Nat) : ℚ) - ((j : Nat) : ℚ)| := by
          push_cast
          rfl
        rw [← h3]
        exact_mod_cast h2
      have habs : |((i : Nat) : ℚ) * cfg.arcSpacing - ((j : Nat) : ℚ) * cfg.arcSpacing|
          = |((i : Nat) : ℚ) - ((j : Nat) : ℚ)| * cfg.arcSpacing := by
        rw [← sub_mul, abs_mul, abs_of_pos hS]
      push_cast
      rw [habs]
      intro hlt
      nlinarith

/-- Extract one link of a `Chain'` through `get?` indexing. -/
theorem chain'_get? {α : Type} {R : α → α → Prop} {l : List α}
    (h : List.Chain' R l) {i : Nat} {a b : α}
    (ha : l.get? i = some a) (hb : l.get? (i + 1) = some b) : R a b := by
  obtain ⟨h1, hg1⟩ := List.get?_eq_some.mp ha
  obtain ⟨h2, hg2⟩ := List.get?_eq_some.mp hb
  have hc := List.chain'_iff_get.mp h i (by omega)
  have e1 : a = l.get ⟨i, h1⟩ := hg1.symm
  have e2 : b = l.get ⟨i + 1, h2⟩ := hg2.symm
  rw [e1, e2]
  exact hc

/-- When the scene list covers the visual sequence and the stored dates
strictly increase along it, a member scene is never flagged
date-violated. -/
theorem needsNewDateOf_false (canvas : Canvas) (scenes : List StoryEvent)
    (s : StoryEvent)
    (hids : (scenes.map StoryEvent.nodeId).Nodup)
    (hvnd : (visualSequence canvas).Nodup)
    (hcov : ∀ i ∈ visualSequence canvas, ∃ t ∈ scenes, t.nodeId = i)
    (hmem : s.nodeId ∈ visualSequence canvas)
    (hs : s ∈ scenes)
    (hchain : List.Chain' (fun a b => compareAbstractDates a.date b.date < 0)
      ((visualSequence canvas).filterMap
        (fun i => scenes.find? (fun t => t.nodeId == i)))) :
    needsNewDateOf canvas scenes s = false := by
  obtain ⟨j, hj⟩ := List.mem_iff_get?.mp hmem
  have hidx : jsIndexOfStr (visualSequence canvas) s.nodeId = (j : Int) :=
    jsIndexOfStr_get hvnd hj
  have hallsome : ∀ i ∈ visualSequence canvas,
      (scenes.find? (fun t => t.nodeId == i)).isSome := by
    intro i hi
    obtain ⟨t, ht, hti⟩ := hcov i hi
    rw [← hti, find?_nodeId_self hids ht]
    rfl
  have hWj : ((visualSequence canvas).filterMap
      (fun i => scenes.find? (fun t => t.nodeId == i))).get? j = some s := by
    rw [filterMap_allSome_get? _ hallsome hj, find?_nodeId_self hids hs]
  have hprev : ∀ p, prevSceneOf canvas scenes s = some p →
      0 < compareAbstractDates s.date p.date := by
    intro p hp
    rw [prevSceneOf] at hp
    rw [hidx] at hp
    cases j with
    | zero =>
      rw [seqGet, if_pos (by norm_num)] at hp
      simp at hp
    | succ j' =>
      rw [seqGet, if_neg (by push_cast; omega)] at hp
      have htn : ((((j' + 1 : Nat)) : Int) - 1).toNat = j' := by omega
      rw [htn] at hp
      obtain ⟨hjlt, -⟩ := List.get?_eq_some.mp hj
      have hj'lt : j' < (visualSequence canvas).length := by omega
      have hg : (visualSequence canvas).get? j'
          = some ((visualSequence canvas).get ⟨j', hj'lt⟩) := List.get?_eq_get hj'lt
      rw [hg] at hp
      simp only [Option.some_bind] at hp
      have hWp : ((visualSequence canvas).filterMap
          (fun i => scenes.find? (fun t => t.nodeId == i))).get? j' = some p := by
        rw [filterMap_allSome_get? _ hallsome hg]
        exact hp
      have hps := chain'_get? hchain hWp hWj
      have ha := compareAbstractDates_antisymm s.date p.date
      omega
  have hnext : ∀ n, nextSceneOf canvas scenes s = some n →
      compareAbstractDates s.date n.date < 0 := by
    intro n hn
    rw [nextSceneOf] at hn
    rw [hidx] at hn
    rw [seqGet, if_neg (by omega)] at hn
    have htn : (((j : Nat) : Int) + 1).toNat = j + 1 := by omega
    rw [htn] at hn
    match hg : (visualSequence canvas).get? (j + 1) with
    | none =>
      rw [hg] at hn
      simp at hn
    | some i1 =>
      rw [hg] at hn
      simp only [Option.some_bind] at hn
      have hWn : ((visualSequence canvas).filterMap
          (fun i => scenes.find? (fun t => t.nodeId == i))).get? (j + 1) = some n := by
        rw [filterMap_allSome_get? _ hallsome hg]
        exact hn
      exact chain'_get? hchain hWj hWn
  rw [needsNewDateOf]
  refine Bool.or_eq_false_iff.mpr ⟨?_, ?_⟩
  · match hp : prevSceneOf canvas scenes s with
    | none => rfl
    | some p =>
      have h1 := hprev p hp
      show decide (compareAbstractDates s.date p.date ≤ 0) = false
      rw [decide_eq_false_iff_not]
      omega
  · match hn : nextSceneOf canvas scenes s with
    | none => rfl
    | some n =>
      have h1 := hnext n hn
      show decide (0 ≤ compareAbstractDates s.date n.date) = false
      rw [decide_eq_false_iff_not]
      omega

unseal Rat.add Rat.mul Rat.sub Rat.inv in
/-- Claim C5 counterexample: two scenes with the same stored date, live
positions exactly equal to the computed layout, yet `calculateSyncChanges`
is not empty — the clamp places the second node to the right of the
first, so each scene sees the other's equal date as a violation. -/
theorem claim_C5_cx :
    (∀ s ∈ ([⟨"a", "A", "A", [1], none, "M"⟩,
             ⟨"b", "B", "B", [1], none, "M"⟩] : List StoryEvent),
      (canvasLookup (Canvas.mk [("a", ⟨0, 0, "file", some "fa"⟩),
          ("b", ⟨450, 0, "file", some "fb"⟩)]) s.nodeId).map
          (fun nd => Pos.mk nd.x nd.y)
        = layoutLookup (calculateLayout
            [⟨"a", "A", "A", [1], none, "M"⟩, ⟨"b", "B", "B", [1], none, "M"⟩]
            ⟨LayoutMode.absolute, 1, 400, 400, 300, 50⟩) s.nodeId)
    ∧ calculateSyncChanges
        (Canvas.mk [("a", ⟨0, 0, "file", some "fa"⟩),
          ("b", ⟨450, 0, "file", some "fb"⟩)])
        [⟨"a", "A", "A", [1], none, "M"⟩, ⟨"b", "B", "B", [1], none, "M"⟩]
        ⟨LayoutMode.absolute, 1, 400, 400, 300, 50⟩ ≠ [] := by
  constructor
  · decide
  · decide

/-- Claim C5 (amended): matching live geometry alone does not make the
sync pass a no-op; it does as soon as the stored dates also strictly
increase along the visual left-to-right sequence. Under the documented
`arcSpacing > 0` invariant, duplicate-free scene and node ids, live
positions equal to the computed layout, every scene node a truthy file
node, every file node owned by a scene, and strictly increasing dates
along the visual sequence, `calculateSyncChanges` returns no change. -/
theorem claim_C5 (canvas : Canvas) (scenes : List StoryEvent)
    (cfg : LayoutConfig)
    (hS : 0 < cfg.arcSpacing)
    (hids : (scenes.map StoryEvent.nodeId).Nodup)
    (hcnv : (canvas.nodes.map Prod.fst).Nodup)
    (hlive : ∀ s ∈ scenes,
      (canvasLookup canvas s.nodeId).map (fun nd => Pos.mk nd.x nd.y)
        = layoutLookup (calculateLayout scenes cfg) s.nodeId)
    (hfile : ∀ s ∈ scenes, ∀ nd, canvasLookup canvas s.nodeId = some nd →
      nd.ntype = "file" ∧ optTruthy nd.file)
    (hcover : ∀ p ∈ fileNodes canvas, ∃ s ∈ scenes, s.nodeId = p.1)
    (hchain : List.Chain' (fun a b => compareAbstractDates a.date b.date < 0)
      ((visualSequence canvas).filterMap
        (fun i => scenes.find? (fun t => t.nodeId == i)))) :
    calculateSyncChanges canvas scenes cfg = [] := by
  rw [calculateSyncChanges, List.filterMap_eq_nil]
  intro s hs
  obtain ⟨xv, hlay⟩ := layoutLookup_y cfg hids hs
  have hmap := hlive s hs
  rw [hlay] at hmap
  match hnd : canvasLookup canvas s.nodeId with
  | none =>
    rw [hnd] at hmap
    simp at hmap
  | some nd =>
    rw [hnd] at hmap
    simp only [Option.map_some'] at hmap
    have hy : nd.y = (jsIndexOfStr (arcOrderOf (sortByDate scenes)) s.arc : ℚ)
        * cfg.arcSpacing := congrArg Pos.y (Option.some.inj hmap)
    have hlaneall : ∀ t ∈ scenes, ∀ nd', canvasLookup canvas t.nodeId = some nd' →
        nd'.y = (jsIndexOfStr (arcOrderOf (sortByDate scenes)) t.arc : ℚ)
          * cfg.arcSpacing
        ∧ t.arc ∈ arcOrderOf (sortByDate scenes) := by
      intro t ht nd' hnd'
      obtain ⟨xv', hlay'⟩ := layoutLookup_y cfg hids ht
      have hmap' := hlive t ht
      rw [hlay', hnd'] at hmap'
      simp only [Option.map_some'] at hmap'
      refine ⟨congrArg Pos.y (Option.some.inj hmap'), ?_⟩
      exact mem_arcOrderOf.mpr
        ⟨t, (List.perm_insertionSort dateLe scenes).mem_iff.mpr ht, rfl⟩
    have hcent := arcCentroids_prop canvas scenes
      (fun a => (jsIndexOfStr (arcOrderOf (sortByDate scenes)) a : ℚ)
        * cfg.arcSpacing)
      (fun a => a ∈ arcOrderOf (sortByDate scenes)) hlaneall
    have hsarc : s.arc ∈ arcOrderOf (sortByDate scenes) :=
      mem_arcOrderOf.mpr
        ⟨s, (List.perm_insertionSort dateLe scenes).mem_iff.mpr hs, rfl⟩
    have harc : arcChangeOf canvas scenes cfg s nd = false :=
      arcChangeOf_false canvas scenes cfg s nd hS hy hsarc hcent
    have hfs := hfile s hs nd hnd
    have hdate : needsNewDateOf canvas scenes s = false :=
      needsNewDateOf_false canvas scenes s hids (visualSequence_nodup hcnv)
        (visualSequence_covered hcover)
        (mem_visualSequence_of_node hnd hfs.1 hfs.2) hs hchain
    rw [sceneSyncChange, hnd]
    dsimp only
    rw [harc, hdate]
    rfl

unseal Rat.add Rat.mul Rat.sub Rat.inv in
/-- Witness for claim C5: two scenes with strictly increasing dates and
live positions equal to the computed layout produce no sync change. -/
theorem claim_C5_witness :
    calculateSyncChanges
      (Canvas.mk [("a", ⟨0, 0, "file", some "fa"⟩),
        ("b", ⟨450, 0, "file", some "fb"⟩)])
      [⟨"a", "A", "A", [1], none, "M"⟩, ⟨"b", "B", "B", [2], none, "M"⟩]
      ⟨LayoutMode.absolute, 1, 400, 400, 300, 50⟩ = [] := by
  have hch : List.Chain'
      (fun a b : StoryEvent => compareAbstractDates a.date b.date < 0)
      ((visualSequence (Canvas.mk [("a", ⟨0, 0, "file", some "fa"⟩),
          ("b", ⟨450, 0, "file", some "fb"⟩)])).filterMap
        (fun i => ([⟨"a", "A", "A", [1], none, "M"⟩,
          ⟨"b", "B", "B", [2], none, "M"⟩] : List StoryEvent).find?
            (fun t => t.nodeId == i))) := by
    have h : (visualSequence (Canvas.mk [("a", ⟨0, 0, "file", some "fa"⟩),
          ("b", ⟨450, 0, "file", some "fb"⟩)])).filterMap
        (fun i => ([⟨"a", "A", "A", [1], none, "M"⟩,
          ⟨"b", "B", "B", [2], none, "M"⟩] : List StoryEvent).find?
            (fun t => t.nodeId == i))
        = [⟨"a", "A", "A", [1], none, "M"⟩,
           ⟨"b", "B", "B", [2], none, "M"⟩] := by decide
    rw [h]
    exact List.chain'_cons.mpr ⟨by decide, List.chain'_singleton _⟩
  exact claim_C5
    (Canvas.mk [("a", ⟨0, 0, "file", some "fa"⟩),
      ("b", ⟨450, 0, "file", some "fb"⟩)])
    [⟨"a", "A", "A", [1], none, "M"⟩, ⟨"b", "B", "B", [2], none, "M"⟩]
    ⟨LayoutMode.absolute, 1, 400, 400, 300, 50⟩
    (by decide) (by decide) (by decide) (by decide) (by decide) (by decide) hch

/-- A change emitted by the per-scene loop carries that scene. -/
theorem sceneSyncChange_scene {canvas : Canvas} {scenes : List StoryEvent}
    {cfg : LayoutConfig} {s : StoryEvent} {c : SyncChange}
    (h : sceneSyncChange canvas scenes cfg s = some c) : c.scene = s := by
  rw [sceneSyncChange] at h
  match hnd : canvasLookup canvas s.nodeId with
  | none =>
    rw [hnd] at h
    simp at h
  | some nd =>
    rw [hnd] at h
    dsimp only at h
    by_cases hc : (arcChangeOf canvas scenes cfg s nd
        || needsNewDateOf canvas scenes s) = true
    · rw [if_pos hc] at h
      injection h with h
      rw [← h]
    · rw [if_neg hc] at h
      simp at h

/-- With duplicate-free scene ids, looking a scene's id up in the sync
output finds exactly that scene's own proposal. -/
theorem calculateSyncChanges_find? (canvas : Canvas) (cfg : LayoutConfig) :
    ∀ {scenes full : List StoryEvent},
    (full.map StoryEvent.nodeId).Nodup →
    List.Sublist (scenes.map StoryEvent.nodeId) (full.map StoryEvent.nodeId) →
    ∀ {s : StoryEvent}, s ∈ scenes →
    (scenes.filterMap (sceneSyncChange canvas full cfg)).find?
        (fun c => c.scene.nodeId == s.nodeId)
      = sceneSyncChange canvas full cfg s
  | [], _, _, _, s, hs => absurd hs (List.not_mem_nil s)
  | t :: rest, full, hnd, hsub, s, hs => by
    have hsub' : List.Sublist (rest.map StoryEvent.nodeId)
        (full.map StoryEvent.nodeId) := by
      refine List.Sublist.trans ?_ hsub
      rw [List.map_cons]
      exact List.sublist_cons_self _ _
    have hrnd : ((t :: rest).map StoryEvent.nodeId).Nodup := hsub.nodup hnd
    rcases List.mem_cons.mp hs with rfl | hs'
    · match hc : sceneSyncChange canvas full cfg s with
      | some c =>
        rw [List.filterMap_cons_some hc]
        rw [List.find?_cons_of_pos _ (by simp [sceneSyncChange_scene hc])]
      | none =>
        rw [List.filterMap_cons_none hc]
        refine List.find?_eq_none.mpr ?_
        intro c hcm
        obtain ⟨u, hu, huc⟩ := List.mem_filterMap.mp hcm
        have hcu : c.scene = u := sceneSyncChange_scene huc
        have hne : u.nodeId ≠ s.nodeId := by
          intro he
          simp only [List.map_cons, List.nodup_cons] at hrnd
          exact hrnd.1 (he ▸ List.mem_map_of_mem StoryEvent.nodeId hu)
        simp [hcu, hne]
    · have hne : t.nodeId ≠ s.nodeId := by
        intro he
        simp only [List.map_cons, List.nodup_cons] at hrnd
        exact hrnd.1 (he ▸ List.mem_map_of_mem StoryEvent.nodeId hs')
      have ih := calculateSyncChanges_find? canvas cfg hnd hsub' hs'
      match hc : sceneSyncChange canvas full cfg t with
      | some c =>
        rw [List.filterMap_cons_some hc]
        rw [List.find?_cons_of_neg _ (by simp [sceneSyncChange_scene hc, hne])]
        exact ih
      | none =>
        rw [List.filterMap_cons_none hc]
        exact ih

-- ═══════════════════ Claim C3 ═══════════════════

/-- Spec model of the date-violation test: the stored date is not
strictly greater than the visual predecessor's, or not strictly less
than the visual successor's. -/
def specViolated (canvas : Canvas) (scenes : List StoryEvent)
    (s : StoryEvent) : Bool :=
  (match prevSceneOf canvas scenes s with
    | some p => decide (compareAbstractDates s.date p.date ≤ 0)
    | none => false)
  || (match nextSceneOf canvas scenes s with
    | some n => decide (0 ≤ compareAbstractDates s.date n.date)
    | none => false)

/-- The least-significant (last) segment of a date. -/
def lastSegment (d : AbstractDate) : Int := d.getD (d.length - 1) 0

/-- Spec model of the proposed-date rule: `none` when not violated;
otherwise only the least-significant segment is replaced — by
`floor((prev_last + next_last) / 2)` with both neighbours (bumped to
`prev_last + 1` when the floor does not exceed `prev_last`), by
`prev_last + 1` with only a predecessor, by `next_last - 1` with only a
successor — and all other segments are copied from the scene's current
date. -/
def specNewDateOf (canvas : Canvas) (scenes : List StoryEvent)
    (s : StoryEvent) : Option (List JSInt) :=
  if specViolated canvas scenes s then
    some (match prevSceneOf canvas scenes s, nextSceneOf canvas scenes s with
      | some p, some n =>
          let mid := Int.fdiv (lastSegment p.date + lastSegment n.date) 2
          let v := if mid ≤ lastSegment p.date then lastSegment p.date + 1 else mid
          (s.date.map some).set (s.date.length - 1) (some v)
      | some p, none =>
          (s.date.map some).set (s.date.length - 1) (some (lastSegment p.date + 1))
      | none, some n =>
          (s.date.map some).set (s.date.length - 1) (some (lastSegment n.date - 1))
      | none, none => s.date.map some)
  else none

/-- Reading a list of length `m` at position `m - 1` yields its last
segment. -/
theorem get?_len_pred {l : List Int} {m : Nat} (h : l.length = m)
    (hm : 1 ≤ m) : l.get? (m - 1) = some (lastSegment l) := by
  subst h
  have hlt : l.length - 1 < l.length := by omega
  rw [List.get?_eq_get hlt, lastSegment, List.getD_eq_getElem _ _ hlt]
  rfl

/-- Claim C3 (amended): with all stored dates of one arity `L ≥ 1` and
duplicate-free scene ids, a scene with a canvas node gets a proposed
date exactly when violated, and the proposal replaces only the
least-significant segment as the spec's rule says — reading the
neighbours' segments at the violated scene's last index, which under
equal arity is their own last segment. -/
theorem claim_C3 (canvas : Canvas) (scenes : List StoryEvent)
    (cfg : LayoutConfig) (L : Nat) (hL : 1 ≤ L)
    (hids : (scenes.map StoryEvent.nodeId).Nodup)
    (hlen : ∀ t ∈ scenes, t.date.length = L)
    (s : StoryEvent) (hs : s ∈ scenes)
    (nd : CanvasNodeData) (hnd : canvasLookup canvas s.nodeId = some nd) :
    ((calculateSyncChanges canvas scenes cfg).find?
        (fun c => c.scene.nodeId == s.nodeId)).bind (fun c => c.newDate)
      = specNewDateOf canvas scenes s := by
  rw [calculateSyncChanges,
    calculateSyncChanges_find? canvas cfg hids (List.Sublist.refl _) hs]
  rw [sceneSyncChange, hnd]
  dsimp only
  rw [specNewDateOf]
  have hvb : specViolated canvas scenes s = needsNewDateOf canvas scenes s := rfl
  rw [hvb]
  have hls : s.date.length = L := hlen s hs
  match hviol : needsNewDateOf canvas scenes s with
  | false =>
    cases harc : arcChangeOf canvas scenes cfg s nd <;> simp
  | true =>
    simp only [Bool.or_true, if_pos, if_true, Option.some_bind]
    match hp : prevSceneOf canvas scenes s, hn : nextSceneOf canvas scenes s with
    | some p, some n =>
      have hpm : p ∈ scenes := by
        rw [prevSceneOf] at hp
        obtain ⟨i, -, hfind⟩ := Option.bind_eq_some.mp hp
        exact List.mem_of_find?_eq_some hfind
      have hnm : n ∈ scenes := by
        rw [nextSceneOf] at hn
        obtain ⟨i, -, hfind⟩ := Option.bind_eq_some.mp hn
        exact List.mem_of_find?_eq_some hfind
      have hpget : p.date.get? (s.date.length - 1) = some (lastSegment p.date) :=
        get?_len_pred ((hlen p hpm).trans hls.symm) (by omega)
      have hnget : n.date.get? (s.date.length - 1) = some (lastSegment n.date) :=
        get?_len_pred ((hlen n hnm).trans hls.symm) (by omega)
      rw [synthDate]
      dsimp only
      rw [hpget, hnget]
      simp only [jsAdd, jsFloorHalf, jsLe, Option.map_some']
      by_cases hle : Int.fdiv (lastSegment p.date + lastSegment n.date) 2
          ≤ lastSegment p.date
      · rw [if_pos (decide_eq_true hle), if_pos hle]
      · rw [if_neg (by simpa using hle), if_neg hle]
    | some p, none =>
      have hpm : p ∈ scenes := by
        rw [prevSceneOf] at hp
        obtain ⟨i, -, hfind⟩ := Option.bind_eq_some.mp hp
        exact List.mem_of_find?_eq_some hfind
      have hpget : p.date.get? (s.date.length - 1) = some (lastSegment p.date) :=
        get?_len_pred ((hlen p hpm).trans hls.symm) (by omega)
      rw [synthDate]
      dsimp only
      rw [hpget]
      simp only [jsAdd]
    | none, some n =>
      have hnm : n ∈ scenes := by
        rw [nextSceneOf] at hn
        obtain ⟨i, -, hfind⟩ := Option.bind_eq_some.mp hn
        exact List.mem_of_find?_eq_some hfind
      have hnget : n.date.get? (s.date.length - 1) = some (lastSegment n.date) :=
        get?_len_pred ((hlen n hnm).trans hls.symm) (by omega)
      rw [synthDate]
      dsimp only
      rw [hnget]
      simp only [jsAdd]
      rfl
    | none, none =>
      rw [needsNewDateOf, hp, hn] at hviol
      simp at hviol

unseal Rat.add Rat.mul Rat.sub Rat.inv in
/-- Claim C3 counterexample: scene "a" (date `[5]`) sits left of scene
"b" (date `[3,2]`), is violated against its successor, yet the proposal
is not `successor.lastSegment - 1 = 1`: the code reads the successor's
segment at the violated scene's last index (`3`), proposing `[2]`. -/
theorem claim_C3_cx :
    0 ≤ compareAbstractDates [5] [3, 2]
    ∧ ((calculateSyncChanges
        (Canvas.mk [("a", ⟨0, 0, "file", some "fa"⟩),
          ("b", ⟨100, 0, "file", some "fb"⟩)])
        [⟨"a", "A", "A", [5], none, "M"⟩, ⟨"b", "B", "B", [3, 2], none, "M"⟩]
        ⟨LayoutMode.absolute, 10, 500, 400, 300, 50⟩).find?
          (fun c => c.scene.nodeId == "a")).bind (fun c => c.newDate)
      ≠ some [some (lastSegment [3, 2] - 1)] :=
  ⟨by decide, by decide⟩

unseal Rat.add Rat.mul Rat.sub Rat.inv in
/-- Witness for claim C3: on the three-scene reconciliation example the
violated scene R's proposal is exactly the spec rule's value. -/
theorem claim_C3_witness :
    ((calculateSyncChanges
      (Canvas.mk [("p", ⟨0, 0, "file", some "f"⟩), ("r", ⟨100, 0, "file", some "g"⟩),
        ("q", ⟨200, 0, "file", some "h"⟩)])
      [⟨"p", "P", "P", [2024, 1, 10], none, "Main"⟩,
       ⟨"r", "R", "R", [2024, 2, 1], none, "Main"⟩,
       ⟨"q", "Q", "Q", [2024, 1, 15], none, "Main"⟩]
      ⟨LayoutMode.absolute, 10, 500, 400, 300, 50⟩).find?
        (fun c => c.scene.nodeId == "r")).bind (fun c => c.newDate)
      = some [some 2024, some 2, some 12] := by
  have h := claim_C3
    (Canvas.mk [("p", ⟨0, 0, "file", some "f"⟩), ("r", ⟨100, 0, "file", some "g"⟩),
      ("q", ⟨200, 0, "file", some "h"⟩)])
    [⟨"p", "P", "P", [2024, 1, 10], none, "Main"⟩,
     ⟨"r", "R", "R", [2024, 2, 1], none, "Main"⟩,
     ⟨"q", "Q", "Q", [2024, 1, 15], none, "Main"⟩]
    ⟨LayoutMode.absolute, 10, 500, 400, 300, 50⟩ 3 (by decide) (by decide)
    (by decide) ⟨"r", "R", "R", [2024, 2, 1], none, "Main"⟩ (by decide)
    ⟨100, 0, "file", some "g"⟩ (by decide)
  exact h.trans (by decide)

-- ═══════ Constraint window (StoryboardInspectorView.ts 216-268) ═══════

/-- A parsed `story-deps` edge kind. -/
inductive DepKind where
  | before
  | after
deriving DecidableEq

/-- A parsed `story-deps` edge: `basename:before` or `basename:after`. -/
structure Dep where
  basename : String
  kind : DepKind
deriving DecidableEq

/-- The unified constraint window shown by the inspector. -/
structure ConstraintWindow where
  earliest : Option AbstractDate
  earliestSource : String
  latest : Option AbstractDate
  latestSource : String
deriving DecidableEq

/-- One dependency edge of the constraint loop: resolve the target scene
by file basename (skip silently when absent); `after` tightens the
earliest bound on strict compare-improvement, `before` the latest. -/
def depStep (scenes : List StoryEvent) (w : ConstraintWindow)
    (dep : Dep) : ConstraintWindow :=
  match scenes.find? (fun t => t.basename == dep.basename) with
  | none => w
  | some target =>
    match dep.kind with
    | DepKind.after =>
        if (match w.earliest with
            | none => true
            | some e => decide (0 < compareAbstractDates target.date e))
        then ConstraintWindow.mk (some target.date)
          (target.title ++ " (Dep)") w.latest w.latestSource
        else w
    | DepKind.before =>
        if (match w.latest with
            | none => true
            | some l => decide (compareAbstractDates target.date l < 0))
        then ConstraintWindow.mk w.earliest w.earliestSource
          (some target.date) (target.title ++ " (Dep)")
        else w

/-- The unified constraint window of `renderInspector`: arc neighbours
(in date-sorted order of the current arc) seed the bounds, then the
dependency edges tighten them. -/
def computeWindow (scenes : List StoryEvent) (nodeIdCur : String)
    (currentArc : String) (deps : List Dep) : ConstraintWindow :=
  let base :=
    if currentArc = "" then ConstraintWindow.mk none "-∞" none "+∞"
    else
      let arcScenes := List.insertionSort dateLe
        (scenes.filter (fun t => t.arc == currentArc))
      match List.findIdx? (fun t => t.nodeId == nodeIdCur) arcScenes with
      | none => ConstraintWindow.mk none "-∞" none "+∞"
      | some myIndex =>
        let prev := if 0 < myIndex then arcScenes.get? (myIndex - 1) else none
        let next := if myIndex < arcScenes.length - 1
          then arcScenes.get? (myIndex + 1) else none
        ConstraintWindow.mk (prev.map (fun p => p.date))
          (match prev with | some p => p.title ++ " (Arc)" | none => "-∞")
          (next.map (fun n => n.date))
          (match next with | some n => n.title ++ " (Arc)" | none => "+∞")
  deps.foldl (depStep scenes) base

/-- Spec model: `max(current earliest, target.date)` under `compare`,
ties keeping the current bound. -/
def specMaxDate (e : Option AbstractDate) (d : AbstractDate) : AbstractDate :=
  match e with
  | none => d
  | some e => if 0 < compareAbstractDates d e then d else e

/-- Spec model: `min(current latest, target.date)` under `compare`,
ties keeping the current bound. -/
def specMinDate (l : Option AbstractDate) (d : AbstractDate) : AbstractDate :=
  match l with
  | none => d
  | some l => if compareAbstractDates d l < 0 then d else l

/-- An unresolved dependency edge leaves the window untouched. -/
theorem depStep_of_unresolved {scenes : List StoryEvent}
    {w : ConstraintWindow} {dep : Dep}
    (h : scenes.find? (fun t => t.basename == dep.basename) = none) :
    depStep scenes w dep = w := by
  rw [depStep, h]

/-- Dropping all unresolved dependency edges does not change the fold. -/
theorem depFold_filter (scenes : List StoryEvent) :
    ∀ (deps : List Dep) (w : ConstraintWindow),
    (deps.filter (fun d =>
        (scenes.find? (fun t => t.basename == d.basename)).isSome)).foldl
      (depStep scenes) w
    = deps.foldl (depStep scenes) w
  | [], _ => rfl
  | d :: rest, w => by
    match hr : scenes.find? (fun t => t.basename == d.basename) with
    | some target =>
      rw [List.filter_cons_of_pos (by rw [hr]; rfl), List.foldl_cons,
        List.foldl_cons]
      exact depFold_filter scenes rest (depStep scenes w d)
    | none =>
      rw [List.filter_cons_of_neg (by rw [hr]; simp), List.foldl_cons,
        depStep_of_unresolved hr]
      exact depFold_filter scenes rest w

/-- Claim C7 counterexample: dependency targets are resolved by file
basename, not by title. A scene titled "Bee" (basename "B") with date
`[2024,5,1]` exists, yet the edge `{target:"Bee", kind:After}` dangles
and the earliest bound stays open. -/
theorem claim_C7_cx :
    (∃ t ∈ ([⟨"na", "A", "A", [2024, 1, 1], none, ""⟩,
        ⟨"nb", "B", "Bee", [2024, 5, 1], none, ""⟩] : List StoryEvent),
      t.title = "Bee" ∧ t.date = [2024, 5, 1])
    ∧ (computeWindow
        [⟨"na", "A", "A", [2024, 1, 1], none, ""⟩,
         ⟨"nb", "B", "Bee", [2024, 5, 1], none, ""⟩]
        "na" "" [⟨"Bee", DepKind.after⟩]).earliest
      ≠ some [2024, 5, 1] :=
  ⟨by decide, by decide⟩

/-- Claim C7 (amended): dependency targets are resolved by file
basename (dangling edges are silently ignored — dropping them never
changes the window); a resolved `After` edge tightens the earliest
bound to the compare-max of the current bound and the target's date,
leaving the latest bound alone, and `Before` symmetrically tightens the
latest bound to the compare-min; on the example (basename "B", date
`[2024,5,1]`) the window's earliest is `[2024,5,1]` sourced "B (Dep)". -/
theorem claim_C7 :
    (∀ (scenes : List StoryEvent) (id arc : String) (deps : List Dep),
      computeWindow scenes id arc (deps.filter (fun d =>
          (scenes.find? (fun t => t.basename == d.basename)).isSome))
        = computeWindow scenes id arc deps)
    ∧ (∀ (scenes : List StoryEvent) (w : ConstraintWindow) (dep : Dep)
        (target : StoryEvent),
        scenes.find? (fun t => t.basename == dep.basename) = some target →
        dep.kind = DepKind.after →
        (depStep scenes w dep).earliest = some (specMaxDate w.earliest target.date)
        ∧ (depStep scenes w dep).latest = w.latest)
    ∧ (∀ (scenes : List StoryEvent) (w : ConstraintWindow) (dep : Dep)
        (target : StoryEvent),
        scenes.find? (fun t => t.basename == dep.basename) = some target →
        dep.kind = DepKind.before →
        (depStep scenes w dep).latest = some (specMinDate w.latest target.date)
        ∧ (depStep scenes w dep).earliest = w.earliest)
    ∧ computeWindow
        [⟨"na", "A", "A", [2024, 1, 1], none, ""⟩,
         ⟨"nb", "B", "B", [2024, 5, 1], none, ""⟩]
        "na" "" [⟨"B", DepKind.after⟩]
      = ⟨some [2024, 5, 1], "B (Dep)", none, "+∞"⟩ := by
  refine ⟨?_, ?_, ?_, by decide⟩
  · intro scenes id arc deps
    rw [computeWindow, computeWindow]
    exact depFold_filter scenes deps _
  · intro scenes w dep target hfind hkind
    rw [depStep, hfind, hkind]
    dsimp only
    match he : w.earliest with
    | none =>
      rw [if_pos rfl]
      exact ⟨rfl, rfl⟩
    | some e =>
      by_cases hc : 0 < compareAbstractDates target.date e
      · rw [if_pos (decide_eq_true hc)]
        rw [specMaxDate, if_pos hc]
        exact ⟨rfl, rfl⟩
      · rw [if_neg (by simpa using hc)]
        rw [specMaxDate, if_neg hc]
        exact ⟨he, rfl⟩
  · intro scenes w dep target hfind hkind
    rw [depStep, hfind, hkind]
    dsimp only
    match hl : w.latest with
    | none =>
      rw [if_pos rfl]
      exact ⟨rfl, rfl⟩
    | some l =>
      by_cases hc : compareAbstractDates target.date l < 0
      · rw [if_pos (decide_eq_true hc)]
        rw [specMinDate, if_pos hc]
        exact ⟨rfl, rfl⟩
      · rw [if_neg (by simpa using hc)]
        rw [specMinDate, if_neg hc]
        exact ⟨hl, rfl⟩

/-- Witness for claim C7: a resolved After edge on an open window sets
the earliest bound to the target's date. -/
theorem claim_C7_witness :
    (depStep [⟨"nb", "B", "B", [2024, 5, 1], none, ""⟩]
        ⟨none, "-∞", none, "+∞"⟩ ⟨"B", DepKind.after⟩).earliest
      = some (specMaxDate none [2024, 5, 1]) :=
  (claim_C7.2.1 [⟨"nb", "B", "B", [2024, 5, 1], none, ""⟩]
    ⟨none, "-∞", none, "+∞"⟩ ⟨"B", DepKind.after⟩
    ⟨"nb", "B", "B", [2024, 5, 1], none, ""⟩ (by decide) rfl).1
